import Mathlib

/-!
Bit primitives of cuda_helper.h

A shallow embedding of the bit-manipulation helpers of `cuda_helper.h`.

Machine words are natural numbers: a `uint32_t` is a `Nat` below `2^32`, a
`uint64_t` a `Nat` below `2^64`, and every operation that can leave the width
is followed by an explicit reduction modulo `2^32` or `2^64`.

The header selects one body per helper with the preprocessor.  The value of
`__CUDA_ARCH__` is the parameter `arch`; it is `0` when the symbol is not
defined (the host compilation pass), which is also the value the preprocessor
gives it inside `#if`.  `#ifdef __CUDA_ARCH__` is therefore `arch ≠ 0`.
-/

namespace CudaHelper

/-! ## Machine-level building blocks -/

/-- Conversion to `uint32_t`. -/
def u32 (x : Nat) : Nat := x % 2 ^ 32

/-- Conversion to `uint64_t`. -/
def u64 (x : Nat) : Nat := x % 2 ^ 64

/-- How a target treats a 64-bit shift whose count is not below 64.  C and C++
leave such a shift undefined, and the generic bodies of `ROTL64` and `ROTR64`
perform one when the rotation amount is `0`.  The two targets the generic body
is compiled for behave as follows: PTX (device tiers below 120) clamps the
count to the register width, so the result is `0`; x86-64 (host) uses the low
six bits of the count. -/
inductive ShiftConv where
  | clamp : ShiftConv
  | wrap : ShiftConv
  deriving DecidableEq, Repr

/-- The effective shift count of a 64-bit shift under a convention. -/
def ShiftConv.count64 : ShiftConv → Nat → Nat
  | .clamp, s => min s 64
  | .wrap, s => s % 64

/-- C operator `<<` on `uint64_t` (effective count `s`). -/
def shl64 (x s : Nat) : Nat := (x <<< s) % 2 ^ 64

/-- C operator `>>` on `uint64_t` (effective count `s`). -/
def shr64 (x s : Nat) : Nat := x >>> s

/-- C operator `<<` on `uint32_t` with a count below 32. -/
def shl32 (x s : Nat) : Nat := (x <<< s) % 2 ^ 32

/-! ## PTX instructions used by the inline assembly -/

/-- PTX `shl.b64`: shift amounts greater than the register width are clamped
to it. -/
def ptx_shl_b64 (a b : Nat) : Nat := (a <<< min b 64) % 2 ^ 64

/-- PTX `shr.b64`: shift amounts greater than the register width are clamped
to it; zero fill. -/
def ptx_shr_b64 (a b : Nat) : Nat := a >>> min b 64

/-- PTX `sub.u32`: wrapping 32-bit subtraction. -/
def ptx_sub_u32 (a b : Nat) : Nat := (a + 2 ^ 32 - b % 2 ^ 32) % 2 ^ 32

/-- PTX `add.u64`: wrapping 64-bit addition. -/
def ptx_add_u64 (a b : Nat) : Nat := (a + b) % 2 ^ 64

/-- The 64-bit value `b:a` formed from two 32-bit registers. -/
def concat32 (b a : Nat) : Nat := ((b % 2 ^ 32) <<< 32) ||| (a % 2 ^ 32)

/-- PTX `shf.l.wrap.b32 d, a, b, c`: the 64-bit value `b:a` is shifted left by
`c mod 32`; `d` is the most significant 32 bits of the result. -/
def shf_l_wrap_b32 (a b c : Nat) : Nat :=
  (((concat32 b a) <<< (c % 32)) % 2 ^ 64) >>> 32

/-- PTX `shf.r.wrap.b32 d, a, b, c`: the 64-bit value `b:a` is shifted right by
`c mod 32`; `d` is the least significant 32 bits of the result. -/
def shf_r_wrap_b32 (a b c : Nat) : Nat :=
  ((concat32 b a) >>> (c % 32)) % 2 ^ 32

/-! ## CUDA intrinsics

A `double` is represented by its 64-bit pattern; the intrinsics below only
move bits between the integer and the floating-point view. -/

/-- Intrinsic `__longlong_as_double`: reinterpret the 64 bits. -/
def __longlong_as_double (x : Nat) : Nat := x % 2 ^ 64

/-- Intrinsic `__double_as_longlong`: reinterpret the 64 bits. -/
def __double_as_longlong (d : Nat) : Nat := d % 2 ^ 64

/-- Intrinsic `__hiloint2double(hi, lo)`: the double whose pattern is `hi:lo`. -/
def __hiloint2double (hi lo : Nat) : Nat := concat32 hi lo

/-- Intrinsic `__double2loint`: the low 32 bits of the pattern. -/
def __double2loint (d : Nat) : Nat := d % 2 ^ 32

/-- Intrinsic `__double2hiint`: the high 32 bits of the pattern. -/
def __double2hiint (d : Nat) : Nat := (d >>> 32) % 2 ^ 32

/-- Byte `j` of a value. -/
def byteOf (v j : Nat) : Nat := (v >>> (8 * j)) % 256

/-- Intrinsic `__byte_perm(x, y, s)`: result byte `k` is the byte of the 8-byte
value `y:x` whose number is given by the low three bits of nibble `k` of `s`. -/
def __byte_perm (x y s : Nat) : Nat :=
  let v := concat32 y x
  let sel := fun k => (s >>> (4 * k)) % 8
  byteOf v (sel 0) ||| (byteOf v (sel 1) <<< 8) ||| (byteOf v (sel 2) <<< 16)
    ||| (byteOf v (sel 3) <<< 24)

/-! ## The helpers of cuda_helper.h -/

/-- Helper `MAKE_ULONGLONG(LO, HI)`: the double-register intrinsics for
`__CUDA_ARCH__ >= 130`, `(uint64_t)LO | (((uint64_t)HI) << 32)` otherwise. -/
def MAKE_ULONGLONG (arch : Nat) (LO HI : Nat) : Nat :=
  if arch ≥ 130 then
    __double_as_longlong (__hiloint2double HI LO)
  else
    u64 LO ||| shl64 (u64 HI) 32

/-- Helper `_LOWORD(x)`: the double-register intrinsic for `__CUDA_ARCH__ >= 130`,
`(uint32_t)(x & 0xFFFFFFFFULL)` otherwise. -/
def _LOWORD (arch : Nat) (x : Nat) : Nat :=
  if arch ≥ 130 then
    u32 (__double2loint (__longlong_as_double x))
  else
    u32 (x &&& 0xFFFFFFFF)

/-- Helper `_HIWORD(x)`: the double-register intrinsic for `__CUDA_ARCH__ >= 130`,
`(uint32_t)(x >> 32)` otherwise. -/
def _HIWORD (arch : Nat) (x : Nat) : Nat :=
  if arch ≥ 130 then
    u32 (__double2hiint (__longlong_as_double x))
  else
    u32 (shr64 x 32)

/-- Helper `cuda_swab32(x)`: the device function when `__CUDA_ARCH__` is defined, the
host definition otherwise. -/
def cuda_swab32 (arch : Nat) (x : Nat) : Nat :=
  if arch ≠ 0 then
    __byte_perm x x 0x0123
  else
    ((shl32 x 24) &&& 0xff000000) ||| ((shl32 x 8) &&& 0x00ff0000) |||
      ((x >>> 8) &&& 0x0000ff00) ||| ((x >>> 24) &&& 0x000000ff)

/-- Helper `cuda_swab64(x)`: the device function when `__CUDA_ARCH__` is defined, the
host definition otherwise. -/
def cuda_swab64 (arch : Nat) (x : Nat) : Nat :=
  if arch ≠ 0 then
    let result := u64 (__byte_perm (u32 x) 0 0x0123)
    shl64 result 32 ||| __byte_perm (_HIWORD arch x) 0 0x0123
  else
    u64 (((u64 x &&& 0xff00000000000000) >>> 56) |||
      ((u64 x &&& 0x00ff000000000000) >>> 40) |||
      ((u64 x &&& 0x0000ff0000000000) >>> 24) |||
      ((u64 x &&& 0x000000ff00000000) >>> 8) |||
      shl64 (u64 x &&& 0x00000000ff000000) 8 |||
      shl64 (u64 x &&& 0x0000000000ff0000) 24 |||
      shl64 (u64 x &&& 0x000000000000ff00) 40 |||
      shl64 (u64 x &&& 0x00000000000000ff) 56)

/-- Helper `xor3(a, b, c)`: the inline assembly when `USE_XOR_ASM_OPTS` is `1`
(`lt = b ^ c; result = a ^ lt`), the definition `(a ^ b ^ c)` otherwise. -/
def xor3 (USE_XOR_ASM_OPTS : Bool) (a b c : Nat) : Nat :=
  if USE_XOR_ASM_OPTS then
    let lt := b ^^^ c
    a ^^^ lt
  else
    a ^^^ b ^^^ c

/-- Body of `ROTR64` for `__CUDA_ARCH__ >= 350`: two `shf.r.wrap.b32` over the
halves of `value`, the roles of the halves swapped when `offset >= 32`. -/
def ROTR64_sm350 (value offset : Nat) : Nat :=
  let lo := __double2loint (__longlong_as_double value)
  let hi := __double2hiint (__longlong_as_double value)
  let result : Nat × Nat :=
    if offset < 32 then
      (shf_r_wrap_b32 lo hi offset, shf_r_wrap_b32 hi lo offset)
    else
      (shf_r_wrap_b32 hi lo offset, shf_r_wrap_b32 lo hi offset)
  __double_as_longlong (__hiloint2double result.2 result.1)

/-- Body of `ROTR64` for `__CUDA_ARCH__ >= 120`: `lhs = x shr offset`,
`amt2 = 64 - offset`, `rhs = x shl amt2`, result `lhs + rhs`. -/
def ROTR64_sm120 (x offset : Nat) : Nat :=
  let lhs := ptx_shr_b64 x offset
  let amt2 := ptx_sub_u32 64 offset
  let rhs := ptx_shl_b64 x amt2
  ptx_add_u64 lhs rhs

/-- Generic definition of `ROTR64`: `(((x) >> (n)) | ((x) << (64 - (n))))`. -/
def ROTR64_host (c : ShiftConv) (x n : Nat) : Nat :=
  shr64 x (c.count64 n) ||| shl64 x (c.count64 (64 - n))

/-- Helper `ROTR64(value, offset)` as selected by the preprocessor. -/
def ROTR64 (arch : Nat) (c : ShiftConv) (value offset : Nat) : Nat :=
  if arch ≥ 350 then ROTR64_sm350 value offset
  else if arch ≥ 120 then ROTR64_sm120 value offset
  else ROTR64_host c value offset

/-- Body of `ROTL64` for `__CUDA_ARCH__ >= 350`: two `shf.l.wrap.b32` over the
halves of `value`, the roles of the halves swapped when `offset >= 32`. -/
def ROTL64_sm350 (value offset : Nat) : Nat :=
  let lo := __double2loint (__longlong_as_double value)
  let hi := __double2hiint (__longlong_as_double value)
  let result : Nat × Nat :=
    if offset ≥ 32 then
      (shf_l_wrap_b32 lo hi offset, shf_l_wrap_b32 hi lo offset)
    else
      (shf_l_wrap_b32 hi lo offset, shf_l_wrap_b32 lo hi offset)
  __double_as_longlong (__hiloint2double result.2 result.1)

/-- Body of `ROTL64` for `__CUDA_ARCH__ >= 120`: `lhs = x shl offset`,
`amt2 = 64 - offset`, `rhs = x shr amt2`, result `lhs + rhs`. -/
def ROTL64_sm120 (x offset : Nat) : Nat :=
  let lhs := ptx_shl_b64 x offset
  let amt2 := ptx_sub_u32 64 offset
  let rhs := ptx_shr_b64 x amt2
  ptx_add_u64 lhs rhs

/-- Generic definition of `ROTL64`: `(((x) << (n)) | ((x) >> (64 - (n))))`. -/
def ROTL64_host (c : ShiftConv) (x n : Nat) : Nat :=
  shl64 x (c.count64 n) ||| shr64 x (c.count64 (64 - n))

/-- Helper `ROTL64(value, offset)` as selected by the preprocessor. -/
def ROTL64 (arch : Nat) (c : ShiftConv) (value offset : Nat) : Nat :=
  if arch ≥ 350 then ROTL64_sm350 value offset
  else if arch ≥ 120 then ROTL64_sm120 value offset
  else ROTL64_host c value offset

/-- The effective shift count of a 32-bit shift under a convention: PTX clamps
the count to the register width, x86 uses its low five bits. -/
def ShiftConv.count32 : ShiftConv → Nat → Nat
  | .clamp, s => min s 32
  | .wrap, s => s % 32

/-- C operator `>>` on `uint32_t` (effective count `s`). -/
def shr32 (x s : Nat) : Nat := x >>> s

/-- Constant constructor `SPH_C32(x)`: `((uint32_t)(x ## U))`. -/
def SPH_C32 (x : Nat) : Nat := u32 x

/-- Width mask `SPH_T32(x)`: `((x) & SPH_C32(0xFFFFFFFF))`. -/
def SPH_T32 (x : Nat) : Nat := x &&& SPH_C32 0xFFFFFFFF

/-- Intrinsic `__funnelshift_l(lo, hi, shift)`: the 64-bit value `hi:lo` is
shifted left by `shift & 31`; the result is its most significant 32 bits. -/
def __funnelshift_l (lo hi shift : Nat) : Nat := shf_l_wrap_b32 lo hi shift

/-- Helper `ROTL32(x, n)` on a `uint32_t`: the generic definition
`SPH_T32(((x) << (n)) | ((x) >> (32 - (n))))` for `__CUDA_ARCH__ < 350`, the
funnel shifter otherwise. -/
def ROTL32 (arch : Nat) (c : ShiftConv) (x n : Nat) : Nat :=
  if arch < 350 then
    SPH_T32 (shl32 x (c.count32 n) ||| shr32 x (c.count32 (32 - n)))
  else
    __funnelshift_l x x n

/-- Helper `REPLACE_HIWORD(x, y)`:
`(x & 0xFFFFFFFFULL) | (((uint64_t)y) << 32ULL)`. -/
def REPLACE_HIWORD (x y : Nat) : Nat :=
  (x &&& 0xFFFFFFFF) ||| shl64 (u64 y) 32

/-- Helper `REPLACE_LOWORD(x, y)`:
`(x & 0xFFFFFFFF00000000ULL) | ((uint64_t)y)`. -/
def REPLACE_LOWORD (x y : Nat) : Nat :=
  (x &&& 0xFFFFFFFF00000000) ||| u64 y

/-- Helper `xor1(a, b)`: the inline assembly `xor.b64 result, a, b` when
`USE_XOR_ASM_OPTS` is `1`, the definition `(a ^ b)` otherwise. -/
def xor1 (USE_XOR_ASM_OPTS : Bool) (a b : Nat) : Nat :=
  if USE_XOR_ASM_OPTS then
    let result := a ^^^ b
    result
  else
    a ^^^ b

/-- Helper `xor8(a, ..., h)`: when `USE_XOR_ASM_OPTS` is `1` the inline assembly,
which starts from `g ^ h` and then folds in `f`, `e`, `d`, `c`, `b`, `a` in this
order; the definition `(a^b^c^d^e^f^g^h)` otherwise. -/
def xor8 (USE_XOR_ASM_OPTS : Bool) (a b c d e f g h : Nat) : Nat :=
  if USE_XOR_ASM_OPTS then
    let r0 := g ^^^ h
    let r1 := r0 ^^^ f
    let r2 := r1 ^^^ e
    let r3 := r2 ^^^ d
    let r4 := r3 ^^^ c
    let r5 := r4 ^^^ b
    let r6 := r5 ^^^ a
    r6
  else
    a ^^^ b ^^^ c ^^^ d ^^^ e ^^^ f ^^^ g ^^^ h

/-- Helper `xandx(a, b, c)`: `m = b ^ c; n = m & a; result = n ^ c`. -/
def xandx (a b c : Nat) : Nat :=
  let m := b ^^^ c
  let n := m &&& a
  n ^^^ c

/-- Helper `sph_t64(x)`: `result = x & 0xFFFFFFFFFFFFFFFF`. -/
def sph_t64 (x : Nat) : Nat := x &&& 0xFFFFFFFFFFFFFFFF

/-- Helper `andor(a, b, c)`: `m = a & b; n = a | b; o = n & c;
result = m | o`. -/
def andor (a b c : Nat) : Nat :=
  let m := a &&& b
  let n := a ||| b
  let o := n &&& c
  m ||| o

/-- Helper `shr_t64(x, n)`: `m = x shr n; result = m & 0xFFFFFFFFFFFFFFFF`. -/
def shr_t64 (x n : Nat) : Nat :=
  let m := ptx_shr_b64 x n
  m &&& 0xFFFFFFFFFFFFFFFF

/-- Helper `shl_t64(x, n)`: `m = x shl n; result = m & 0xFFFFFFFFFFFFFFFF`. -/
def shl_t64 (x n : Nat) : Nat :=
  let m := ptx_shl_b64 x n
  m &&& 0xFFFFFFFFFFFFFFFF

/-- The 64-bit complement `~a` of a `uint64_t`. -/
def not64 (a : Nat) : Nat := 2 ^ 64 - 1 - a % 2 ^ 64

/-! ## The call guard

`CUDA_SAFE_CALL(call)` wraps a call into the CUDA runtime.  The process is
modelled by explicit state passing: the call maps the process state to a status
code and a new state, `fprintf(stderr, ...)` appends a text to the diagnostic
stream, and `exit` ends the process with a status.  A status code
(`cudaError_t`) is a natural number. -/

/-- Status `cudaSuccess` of the CUDA runtime. -/
def cudaSuccess : Nat := 0

/-- Exit status `EXIT_FAILURE` of the C library, `1` on the platforms the
header is built for. -/
def EXIT_FAILURE : Nat := 1

/-- Process state seen by the guard: the state the runtime call works on and
the texts written to `stderr` so far. -/
structure Proc (σ : Type) where
  env : σ
  stderr : List String

/-- A process either keeps running or has been terminated with an exit
status. -/
inductive Outcome (σ : Type) where
  | running : Proc σ → Outcome σ
  | exited : Nat → Proc σ → Outcome σ

/-- The process state of an outcome. -/
def Outcome.proc {σ : Type} : Outcome σ → Proc σ
  | .running p => p
  | .exited _ p => p

/-- Whether the process has been terminated. -/
def Outcome.terminated {σ : Type} : Outcome σ → Bool
  | .running _ => false
  | .exited _ _ => true

/-- Library call `fprintf(stderr, text)`: one write to the diagnostic stream. -/
def fprintf_stderr {σ : Type} (p : Proc σ) (text : String) : Proc σ :=
  { p with stderr := p.stderr ++ [text] }

/-- The text produced for the format
`"Cuda error in file '%s' in line %i : %s.\n"` with the arguments `__FILE__`,
`__LINE__` and `cudaGetErrorString(err)`. -/
def diagnostic (file : String) (line : Nat) (errorString : String) : String :=
  "Cuda error in file \x27" ++ file ++ "\x27 in line " ++ toString line ++ " : "
    ++ errorString ++ ".\n"

/-- Guard `CUDA_SAFE_CALL(call)` expanded at the call site `FILE`, `LINE`:
`err = call`; when `cudaSuccess != err` the diagnostic is written and the
process exits with `EXIT_FAILURE`; otherwise control falls through.  The
runtime function `cudaGetErrorString` is a parameter. -/
def CUDA_SAFE_CALL {σ : Type} (FILE : String) (LINE : Nat)
    (cudaGetErrorString : Nat → String) (call : Proc σ → Nat × Proc σ) (p : Proc σ) :
    Outcome σ :=
  let r := call p
  let err := r.1
  if cudaSuccess ≠ err then
    Outcome.exited EXIT_FAILURE
      (fprintf_stderr r.2 (diagnostic FILE LINE (cudaGetErrorString err)))
  else
    Outcome.running r.2

/-! ## Bit-level lemmas -/

/-- A value below `2^w` has no bit set at position `w` or above. -/
theorem testBit_high {x w k : Nat} (hx : x < 2 ^ w) (hk : w ≤ k) : x.testBit k = false := by
  apply Nat.testBit_lt_two_pow
  exact lt_of_lt_of_le hx (Nat.pow_le_pow_right (by decide) hk)

/-- Bits of the generic left rotation. -/
theorem testBit_ROTL64_generic (c : ShiftConv) {x n : Nat} (hx : x < 2 ^ 64) (hn : n < 64)
    (j : Nat) :
    (ROTL64_host c x n).testBit j
      = (decide (j < 64) && x.testBit ((j + 64 - n) % 64)) := by
  cases c
  · simp only [ROTL64_host, shl64, shr64, ShiftConv.count64, Nat.testBit_or, Nat.testBit_mod_two_pow,
      Nat.testBit_shiftLeft, Nat.testBit_shiftRight]
    have h1 : min n 64 = n := by omega
    have h2 : min (64 - n) 64 = 64 - n := by omega
    rw [h1, h2]
    by_cases hj : j < 64
    · by_cases hjn : n ≤ j
      · have e1 : (j + 64 - n) % 64 = j - n := by omega
        have e2 : x.testBit (64 - n + j) = false := testBit_high hx (by omega)
        simp [hj, hjn, e1, e2]
      · have e1 : (j + 64 - n) % 64 = 64 - n + j := by omega
        simp [hj, hjn, e1]
    · have e2 : x.testBit (64 - n + j) = false := testBit_high hx (by omega)
      simp [hj, e2]
  · simp only [ROTL64_host, shl64, shr64, ShiftConv.count64, Nat.testBit_or,
      Nat.testBit_mod_two_pow, Nat.testBit_shiftLeft, Nat.testBit_shiftRight]
    have h1 : n % 64 = n := by omega
    rw [h1]
    by_cases hj : j < 64
    · by_cases hjn : n ≤ j
      · have e1 : (j + 64 - n) % 64 = j - n := by omega
        by_cases h0 : n = 0
        · subst h0
          have e3 : j % 64 = j := by omega
          simp [hj, e3]
        · have h2 : (64 - n) % 64 = 64 - n := by omega
          have e2 : x.testBit (64 - n + j) = false := testBit_high hx (by omega)
          simp [hj, hjn, e1, e2, h2]
      · have e1 : (j + 64 - n) % 64 = 64 - n + j := by omega
        have h2 : (64 - n) % 64 = 64 - n := by omega
        simp [hj, hjn, e1, h2]
    · have e2 : x.testBit ((64 - n) % 64 + j) = false := testBit_high hx (by omega)
      simp [hj, e2]

/-- Bits of the generic right rotation. -/
theorem testBit_ROTR64_generic (c : ShiftConv) {x n : Nat} (hx : x < 2 ^ 64) (hn : n < 64)
    (j : Nat) :
    (ROTR64_host c x n).testBit j
      = (decide (j < 64) && x.testBit ((j + n) % 64)) := by
  have hc : c.count64 n = n := by
    cases c
    · show min n 64 = n
      omega
    · show n % 64 = n
      omega
  have hc2 : n ≠ 0 → c.count64 (64 - n) = 64 - n := by
    intro h0
    cases c
    · show min (64 - n) 64 = 64 - n
      omega
    · show (64 - n) % 64 = 64 - n
      omega
  simp only [ROTR64_host, shl64, shr64, Nat.testBit_or, Nat.testBit_mod_two_pow,
    Nat.testBit_shiftLeft, Nat.testBit_shiftRight, hc]
  by_cases h0 : n = 0
  · subst h0
    by_cases hj : j < 64
    · have e3 : j % 64 = j := by omega
      have e4 : ¬ 64 ≤ j := by omega
      cases c <;> simp [ShiftConv.count64, hj, e3, e4]
    · have e2 : x.testBit j = false := testBit_high hx (by omega)
      cases c <;> simp [ShiftConv.count64, hj, e2]
  · rw [hc2 h0]
    by_cases hj : j < 64
    · by_cases hjn : 64 - n ≤ j
      · have e1 : (j + n) % 64 = j - (64 - n) := by omega
        have e2 : x.testBit (n + j) = false := testBit_high hx (by omega)
        simp [hj, hjn, e1, e2]
      · have e1 : (j + n) % 64 = n + j := by omega
        simp [hj, hjn, e1]
    · have e2 : x.testBit (n + j) = false := testBit_high hx (by omega)
      simp [hj, e2]

/-- A sum of a multiple of `2^n` below `2^64` and a value below `2^n` is their
bitwise or, and stays below `2^64`. -/
theorem shl_add_shr_eq_or {x n : Nat} (hn : n ≤ 64) (y : Nat) (hy : y < 2 ^ n) :
    ((x <<< n) % 2 ^ 64 + y) % 2 ^ 64 = (x <<< n) % 2 ^ 64 ||| y := by
  have hsplit : (2 : Nat) ^ 64 = 2 ^ n * 2 ^ (64 - n) := by
    rw [← Nat.pow_add]
    congr 1
    omega
  have hA : (x <<< n) % 2 ^ 64 = 2 ^ n * (x % 2 ^ (64 - n)) := by
    rw [Nat.shiftLeft_eq, hsplit, Nat.mul_comm x (2 ^ n), Nat.mul_mod_mul_left]
  have hor : (x <<< n) % 2 ^ 64 + y = (x <<< n) % 2 ^ 64 ||| y := by
    rw [hA]
    exact Nat.mul_add_lt_is_or hy _
  have hy64 : y < 2 ^ 64 := lt_of_lt_of_le hy (Nat.pow_le_pow_right (by decide) hn)
  have hlt : (x <<< n) % 2 ^ 64 ||| y < 2 ^ 64 :=
    Nat.or_lt_two_pow (Nat.mod_lt _ (by positivity)) hy64
  rw [hor]
  exact Nat.mod_eq_of_lt hlt

/-- Wrapping 32-bit subtraction of a rotation amount from 64. -/
theorem ptx_sub_u32_64 {n : Nat} (hn : n < 64) : ptx_sub_u32 64 n = 64 - n := by
  unfold ptx_sub_u32
  omega

/-- The shift-and-add left rotation computes the generic formula. -/
theorem ROTL64_add_eq_generic {x n : Nat} (hx : x < 2 ^ 64) (hn : n < 64) :
    ROTL64_sm120 x n = ROTL64_host .clamp x n := by
  unfold ROTL64_sm120 ROTL64_host
  rw [ptx_sub_u32_64 hn]
  have h1 : min n 64 = n := by omega
  have h2 : min (64 - n) 64 = 64 - n := by omega
  simp only [ptx_add_u64, ptx_shl_b64, ptx_shr_b64, shl64, shr64, ShiftConv.count64, h1, h2]
  apply shl_add_shr_eq_or (by omega)
  rw [Nat.shiftRight_eq_div_pow]
  apply Nat.div_lt_of_lt_mul
  rw [← Nat.pow_add]
  have h3 : 64 - n + n = 64 := by omega
  rw [h3]
  exact hx

/-- The shift-and-add right rotation computes the generic formula. -/
theorem ROTR64_add_eq_generic {x n : Nat} (hx : x < 2 ^ 64) (hn : n < 64) :
    ROTR64_sm120 x n = ROTR64_host .clamp x n := by
  unfold ROTR64_sm120 ROTR64_host
  rw [ptx_sub_u32_64 hn]
  have h1 : min n 64 = n := by omega
  have h2 : min (64 - n) 64 = 64 - n := by omega
  simp only [ptx_add_u64, ptx_shl_b64, ptx_shr_b64, shl64, shr64, ShiftConv.count64, h1, h2]
  rw [Nat.add_comm, Nat.lor_comm]
  apply shl_add_shr_eq_or (by omega)
  rw [Nat.shiftRight_eq_div_pow]
  apply Nat.div_lt_of_lt_mul
  by_cases h0 : n = 0
  · subst h0
    simpa using hx
  · rw [← Nat.pow_add]
    have h3 : n + (64 - n) = 64 := by omega
    rw [h3]
    exact hx

/-- Bits of the 64-bit value formed from two registers. -/
theorem testBit_concat32 (b a j : Nat) :
    (concat32 b a).testBit j
      = if j < 32 then a.testBit j else (decide (j < 64) && b.testBit (j - 32)) := by
  simp only [concat32, Nat.testBit_or, Nat.testBit_mod_two_pow, Nat.testBit_shiftLeft]
  by_cases h : j < 32
  · have h2 : ¬ 32 ≤ j := by omega
    simp [h, h2]
  · have h2 : 32 ≤ j := by omega
    by_cases h3 : j < 64
    · have h4 : j - 32 < 32 := by omega
      simp [h, h2, h3, h4]
    · have h4 : ¬ j - 32 < 32 := by omega
      simp [h, h2, h3, h4]

/-- Bits of the left funnel shift. -/
theorem testBit_shf_l_wrap_b32 (a b c j : Nat) :
    (shf_l_wrap_b32 a b c).testBit j
      = (decide (j < 32) && (decide (c % 32 ≤ 32 + j) &&
          (concat32 b a).testBit (32 + j - c % 32))) := by
  simp only [shf_l_wrap_b32, Nat.testBit_shiftRight, Nat.testBit_mod_two_pow,
    Nat.testBit_shiftLeft]
  by_cases h : j < 32
  · have h2 : 32 + j < 64 := by omega
    simp [h, h2]
  · have h2 : ¬ 32 + j < 64 := by omega
    simp [h, h2]

/-- Bits of the right funnel shift. -/
theorem testBit_shf_r_wrap_b32 (a b c j : Nat) :
    (shf_r_wrap_b32 a b c).testBit j
      = (decide (j < 32) && (concat32 b a).testBit (c % 32 + j)) := by
  simp only [shf_r_wrap_b32, Nat.testBit_shiftRight, Nat.testBit_mod_two_pow]

/-- Bits of the low word of a 64-bit pattern. -/
theorem testBit_double2loint (x j : Nat) :
    (__double2loint (__longlong_as_double x)).testBit j
      = (decide (j < 32) && x.testBit j) := by
  simp only [__double2loint, __longlong_as_double, Nat.testBit_mod_two_pow]
  by_cases h : j < 32
  · have h2 : j < 64 := by omega
    simp [h, h2]
  · simp [h]

/-- Bits of the high word of a 64-bit pattern. -/
theorem testBit_double2hiint (x j : Nat) :
    (__double2hiint (__longlong_as_double x)).testBit j
      = (decide (j < 32) && x.testBit (32 + j)) := by
  simp only [__double2hiint, __longlong_as_double, Nat.testBit_mod_two_pow,
    Nat.testBit_shiftRight]
  by_cases h : j < 32
  · have h2 : 32 + j < 64 := by omega
    simp [h, h2]
  · simp [h]

/-- Bits of the funnel-shifter left rotation. -/
theorem testBit_ROTL64_funnel {x n : Nat} (hn : n < 64) (j : Nat) :
    (ROTL64_sm350 x n).testBit j = (decide (j < 64) && x.testBit ((j + 64 - n) % 64)) := by
  unfold ROTL64_sm350
  by_cases h32 : n ≥ 32
  · simp only [if_pos h32, __double_as_longlong, __hiloint2double, Nat.testBit_mod_two_pow,
      testBit_concat32, testBit_shf_l_wrap_b32, testBit_double2loint, testBit_double2hiint]
    by_cases hj : j < 64
    · by_cases hj32 : j < 32
      · by_cases hq : 32 + j - n % 32 < 32
        · have e : (j + 64 - n) % 64 = 32 + j - n % 32 := by omega
          have d1 : n % 32 ≤ 32 + j := by omega
          simp [hj, hj32, hq, d1, e]
        · have e : (j + 64 - n) % 64 = 32 + (32 + j - n % 32 - 32) := by omega
          have d1 : n % 32 ≤ 32 + j := by omega
          have d2 : 32 + j - n % 32 < 64 := by omega
          have d3 : 32 + j - n % 32 - 32 < 32 := by omega
          simp [hj, hj32, hq, d1, d2, d3, e]
      · by_cases hq : 32 + (j - 32) - n % 32 < 32
        · have e : (j + 64 - n) % 64 = 32 + (32 + (j - 32) - n % 32) := by omega
          have d0 : j - 32 < 32 := by omega
          have d1 : n % 32 ≤ 32 + (j - 32) := by omega
          simp [hj, hj32, hq, d0, d1, e]
        · have e : (j + 64 - n) % 64 = 32 + (j - 32) - n % 32 - 32 := by omega
          have d0 : j - 32 < 32 := by omega
          have d1 : n % 32 ≤ 32 + (j - 32) := by omega
          have d2 : 32 + (j - 32) - n % 32 < 64 := by omega
          have d3 : 32 + (j - 32) - n % 32 - 32 < 32 := by omega
          simp [hj, hj32, hq, d0, d1, d2, d3, e]
    · simp [hj]
  · simp only [if_neg h32, __double_as_longlong, __hiloint2double, Nat.testBit_mod_two_pow,
      testBit_concat32, testBit_shf_l_wrap_b32, testBit_double2loint, testBit_double2hiint]
    by_cases hj : j < 64
    · by_cases hj32 : j < 32
      · by_cases hq : 32 + j - n % 32 < 32
        · have e : (j + 64 - n) % 64 = 32 + (32 + j - n % 32) := by omega
          have d1 : n % 32 ≤ 32 + j := by omega
          simp [hj, hj32, hq, d1, e]
        · have e : (j + 64 - n) % 64 = 32 + j - n % 32 - 32 := by omega
          have d1 : n % 32 ≤ 32 + j := by omega
          have d2 : 32 + j - n % 32 < 64 := by omega
          have d3 : 32 + j - n % 32 - 32 < 32 := by omega
          simp [hj, hj32, hq, d1, d2, d3, e]
      · by_cases hq : 32 + (j - 32) - n % 32 < 32
        · have e : (j + 64 - n) % 64 = 32 + (j - 32) - n % 32 := by omega
          have d0 : j - 32 < 32 := by omega
          have d1 : n % 32 ≤ 32 + (j - 32) := by omega
          simp [hj, hj32, hq, d0, d1, e]
        · have e : (j + 64 - n) % 64 = 32 + (32 + (j - 32) - n % 32 - 32) := by omega
          have d0 : j - 32 < 32 := by omega
          have d1 : n % 32 ≤ 32 + (j - 32) := by omega
          have d2 : 32 + (j - 32) - n % 32 < 64 := by omega
          have d3 : 32 + (j - 32) - n % 32 - 32 < 32 := by omega
          simp [hj, hj32, hq, d0, d1, d2, d3, e]
    · simp [hj]

/-- Bits of the funnel-shifter right rotation. -/
theorem testBit_ROTR64_funnel {x n : Nat} (hn : n < 64) (j : Nat) :
    (ROTR64_sm350 x n).testBit j = (decide (j < 64) && x.testBit ((j + n) % 64)) := by
  unfold ROTR64_sm350
  by_cases h32 : n < 32
  · simp only [if_pos h32, __double_as_longlong, __hiloint2double, Nat.testBit_mod_two_pow,
      testBit_concat32, testBit_shf_r_wrap_b32, testBit_double2loint, testBit_double2hiint]
    by_cases hj : j < 64
    · by_cases hj32 : j < 32
      · by_cases hq : n % 32 + j < 32
        · have e : (j + n) % 64 = n % 32 + j := by omega
          simp [hj, hj32, hq, e]
        · have e : (j + n) % 64 = 32 + (n % 32 + j - 32) := by omega
          have d2 : n % 32 + j < 64 := by omega
          have d3 : n % 32 + j - 32 < 32 := by omega
          simp [hj, hj32, hq, d2, d3, e]
      · by_cases hq : n % 32 + (j - 32) < 32
        · have e : (j + n) % 64 = 32 + (n % 32 + (j - 32)) := by omega
          have d0 : j - 32 < 32 := by omega
          simp [hj, hj32, hq, d0, e]
        · have e : (j + n) % 64 = n % 32 + (j - 32) - 32 := by omega
          have d0 : j - 32 < 32 := by omega
          have d2 : n % 32 + (j - 32) < 64 := by omega
          have d3 : n % 32 + (j - 32) - 32 < 32 := by omega
          simp [hj, hj32, hq, d0, d2, d3, e]
    · simp [hj]
  · simp only [if_neg h32, __double_as_longlong, __hiloint2double, Nat.testBit_mod_two_pow,
      testBit_concat32, testBit_shf_r_wrap_b32, testBit_double2loint, testBit_double2hiint]
    by_cases hj : j < 64
    · by_cases hj32 : j < 32
      · by_cases hq : n % 32 + j < 32
        · have e : (j + n) % 64 = 32 + (n % 32 + j) := by omega
          simp [hj, hj32, hq, e]
        · have e : (j + n) % 64 = n % 32 + j - 32 := by omega
          have d2 : n % 32 + j < 64 := by omega
          have d3 : n % 32 + j - 32 < 32 := by omega
          simp [hj, hj32, hq, d2, d3, e]
      · by_cases hq : n % 32 + (j - 32) < 32
        · have e : (j + n) % 64 = n % 32 + (j - 32) := by omega
          have d0 : j - 32 < 32 := by omega
          simp [hj, hj32, hq, d0, e]
        · have e : (j + n) % 64 = 32 + (n % 32 + (j - 32) - 32) := by omega
          have d0 : j - 32 < 32 := by omega
          have d2 : n % 32 + (j - 32) < 64 := by omega
          have d3 : n % 32 + (j - 32) - 32 < 32 := by omega
          simp [hj, hj32, hq, d0, d2, d3, e]
    · simp [hj]

/-- Bits of a left rotation: every tier computes the same circular shift. -/
theorem testBit_ROTL64 (arch : Nat) (c : ShiftConv) {x n : Nat} (hx : x < 2 ^ 64)
    (hn : n < 64) (j : Nat) :
    (ROTL64 arch c x n).testBit j = (decide (j < 64) && x.testBit ((j + 64 - n) % 64)) := by
  unfold ROTL64
  split_ifs with h1 h2
  · exact testBit_ROTL64_funnel hn j
  · rw [ROTL64_add_eq_generic hx hn]
    exact testBit_ROTL64_generic .clamp hx hn j
  · exact testBit_ROTL64_generic c hx hn j

/-- Bits of a right rotation: every tier computes the same circular shift. -/
theorem testBit_ROTR64 (arch : Nat) (c : ShiftConv) {x n : Nat} (hx : x < 2 ^ 64)
    (hn : n < 64) (j : Nat) :
    (ROTR64 arch c x n).testBit j = (decide (j < 64) && x.testBit ((j + n) % 64)) := by
  unfold ROTR64
  split_ifs with h1 h2
  · exact testBit_ROTR64_funnel hn j
  · rw [ROTR64_add_eq_generic hx hn]
    exact testBit_ROTR64_generic .clamp hx hn j
  · exact testBit_ROTR64_generic c hx hn j

/-- A value all of whose bits from position `w` on are clear is below `2^w`. -/
theorem lt_of_testBit_high {y w : Nat} (h : ∀ j, w ≤ j → y.testBit j = false) : y < 2 ^ w :=
  Nat.lt_pow_two_of_testBit y h

/-- A left rotation stays within 64 bits. -/
theorem ROTL64_lt (arch : Nat) (c : ShiftConv) {x n : Nat} (hx : x < 2 ^ 64) (hn : n < 64) :
    ROTL64 arch c x n < 2 ^ 64 := by
  apply lt_of_testBit_high
  intro j hj
  have hj2 : ¬ j < 64 := by omega
  rw [testBit_ROTL64 arch c hx hn j]
  simp [hj2]

/-- A right rotation stays within 64 bits. -/
theorem ROTR64_lt (arch : Nat) (c : ShiftConv) {x n : Nat} (hx : x < 2 ^ 64) (hn : n < 64) :
    ROTR64 arch c x n < 2 ^ 64 := by
  apply lt_of_testBit_high
  intro j hj
  have hj2 : ¬ j < 64 := by omega
  rw [testBit_ROTR64 arch c hx hn j]
  simp [hj2]

/-- Two rotations with the same bits are equal: any two tiers agree on left
rotation. -/
theorem ROTL64_tier_eq (a b : Nat) (c d : ShiftConv) {x n : Nat} (hx : x < 2 ^ 64)
    (hn : n < 64) : ROTL64 a c x n = ROTL64 b d x n := by
  apply Nat.eq_of_testBit_eq
  intro j
  rw [testBit_ROTL64 a c hx hn j, testBit_ROTL64 b d hx hn j]

/-- Any two tiers agree on right rotation. -/
theorem ROTR64_tier_eq (a b : Nat) (c d : ShiftConv) {x n : Nat} (hx : x < 2 ^ 64)
    (hn : n < 64) : ROTR64 a c x n = ROTR64 b d x n := by
  apply Nat.eq_of_testBit_eq
  intro j
  rw [testBit_ROTR64 a c hx hn j, testBit_ROTR64 b d hx hn j]

/-- Rotating right undoes rotating left by the same amount. -/
theorem ROTR64_ROTL64_cancel (a b : Nat) (c d : ShiftConv) {x n : Nat} (hx : x < 2 ^ 64)
    (hn : n < 64) : ROTR64 a c (ROTL64 b d x n) n = x := by
  apply Nat.eq_of_testBit_eq
  intro j
  rw [testBit_ROTR64 a c (ROTL64_lt b d hx hn) hn j, testBit_ROTL64 b d hx hn]
  by_cases hj : j < 64
  · have e : ((j + n) % 64 + 64 - n) % 64 = j := by omega
    have d1 : (j + n) % 64 < 64 := by omega
    simp [hj, e, d1]
  · have e : x.testBit j = false := testBit_high hx (by omega)
    simp [hj, e]

/-- Rotating left by zero changes nothing. -/
theorem ROTL64_zero (a : Nat) (c : ShiftConv) {x : Nat} (hx : x < 2 ^ 64) :
    ROTL64 a c x 0 = x := by
  apply Nat.eq_of_testBit_eq
  intro j
  rw [testBit_ROTL64 a c hx (by decide) j]
  by_cases hj : j < 64
  · have e : (j + 64 - 0) % 64 = j := by omega
    rw [e]
    simp [hj]
  · have e : x.testBit j = false := testBit_high hx (by omega)
    simp [hj, e]

/-- Bits of a byte of a value. -/
theorem testBit_byteOf (v j k : Nat) :
    (byteOf v j).testBit k = (decide (k < 8) && v.testBit (8 * j + k)) := by
  have h : (256 : Nat) = 2 ^ 8 := by norm_num
  rw [byteOf, h, Nat.testBit_mod_two_pow, Nat.testBit_shiftRight]

/-- Bits of the byte permutation with selector `0x0123`: byte `k` of the result
is byte `3 - k` of the first operand. -/
theorem testBit_byte_perm_0123 (x y j : Nat) :
    (__byte_perm x y 0x0123).testBit j
      = (decide (j < 32) && x.testBit (8 * (3 - j / 8) + j % 8)) := by
  have s0 : (0x0123 >>> (4 * 0)) % 8 = 3 := by decide
  have s1 : (0x0123 >>> (4 * 1)) % 8 = 2 := by decide
  have s2 : (0x0123 >>> (4 * 2)) % 8 = 1 := by decide
  have s3 : (0x0123 >>> (4 * 3)) % 8 = 0 := by decide
  simp only [__byte_perm, s0, s1, s2, s3, Nat.testBit_or, Nat.testBit_shiftLeft,
    testBit_byteOf, testBit_concat32]
  by_cases hj : j < 32
  · interval_cases j <;> simp
  · have d0 : ¬ j < 8 := by omega
    have d1 : ¬ j - 8 < 8 := by omega
    have d2 : ¬ j - 16 < 8 := by omega
    have d3 : ¬ j - 24 < 8 := by omega
    simp [hj, d0, d1, d2, d3]

/-- Bits of a value masked with `w` ones starting at bit `k`. -/
theorem testBit_and_mask (y k w j : Nat) :
    (y &&& ((2 ^ w - 1) <<< k)).testBit j
      = (y.testBit j && (decide (k ≤ j) && decide (j - k < w))) := by
  simp only [Nat.testBit_and, Nat.testBit_shiftLeft, Nat.testBit_two_pow_sub_one, ge_iff_le]

/-- Bits of the host byte swap of a 32-bit word. -/
theorem testBit_cuda_swab32_host (x j : Nat) :
    (cuda_swab32 0 x).testBit j
      = (decide (j < 32) && x.testBit (8 * (3 - j / 8) + j % 8)) := by
  have m3 : (0xff000000 : Nat) = (2 ^ 8 - 1) <<< 24 := by decide
  have m2 : (0x00ff0000 : Nat) = (2 ^ 8 - 1) <<< 16 := by decide
  have m1 : (0x0000ff00 : Nat) = (2 ^ 8 - 1) <<< 8 := by decide
  have m0 : (0x000000ff : Nat) = (2 ^ 8 - 1) <<< 0 := by decide
  have h0 : ¬ ((0 : Nat) ≠ 0) := by decide
  unfold cuda_swab32
  rw [if_neg h0, m3, m2, m1, m0]
  simp only [shl32, Nat.testBit_or, testBit_and_mask, Nat.testBit_shiftLeft,
    Nat.testBit_shiftRight, Nat.testBit_mod_two_pow]
  by_cases hj : j < 32
  · interval_cases j <;> simp
  · have d0 : ¬ j < 8 := by omega
    have d1 : ¬ j - 8 < 8 := by omega
    have d2 : ¬ j - 16 < 8 := by omega
    have d3 : ¬ j - 24 < 8 := by omega
    have d4 : 8 ≤ j := by omega
    simp [hj, d0, d1, d2, d3, d4]

/-- Bits of the device byte swap of a 32-bit word. -/
theorem testBit_cuda_swab32_device {arch : Nat} (ha : arch ≠ 0) (x j : Nat) :
    (cuda_swab32 arch x).testBit j
      = (decide (j < 32) && x.testBit (8 * (3 - j / 8) + j % 8)) := by
  unfold cuda_swab32
  rw [if_pos ha]
  exact testBit_byte_perm_0123 x x j

/-- Bits of the byte swap of a 32-bit word, on every target. -/
theorem testBit_cuda_swab32 (arch x j : Nat) :
    (cuda_swab32 arch x).testBit j
      = (decide (j < 32) && x.testBit (8 * (3 - j / 8) + j % 8)) := by
  by_cases ha : arch = 0
  · subst ha
    exact testBit_cuda_swab32_host x j
  · exact testBit_cuda_swab32_device ha x j

/-- Bits of the low half of a 64-bit word. -/
theorem testBit_LOWORD (arch x k : Nat) :
    (_LOWORD arch x).testBit k = (decide (k < 32) && x.testBit k) := by
  have m : (0xFFFFFFFF : Nat) = 2 ^ 32 - 1 := by decide
  unfold _LOWORD
  split_ifs with h
  · simp only [u32, __double2loint, __longlong_as_double, Nat.testBit_mod_two_pow]
    by_cases hk : k < 32
    · have hk2 : k < 64 := by omega
      simp [hk, hk2]
    · simp [hk]
  · rw [m, Nat.and_pow_two_sub_one_eq_mod]
    simp only [u32, Nat.testBit_mod_two_pow, Bool.and_assoc, Bool.and_self_left]

/-- Bits of the high half of a 64-bit word. -/
theorem testBit_HIWORD (arch x k : Nat) :
    (_HIWORD arch x).testBit k = (decide (k < 32) && x.testBit (32 + k)) := by
  unfold _HIWORD
  split_ifs with h
  · simp only [u32, __double2hiint, __longlong_as_double, Nat.testBit_mod_two_pow,
      Nat.testBit_shiftRight]
    by_cases hk : k < 32
    · have hk2 : 32 + k < 64 := by omega
      simp [hk, hk2]
    · simp [hk]
  · simp only [u32, shr64, Nat.testBit_mod_two_pow, Nat.testBit_shiftRight]

/-- Bits of the device byte swap of a 64-bit word. -/
theorem testBit_cuda_swab64_device {arch : Nat} (ha : arch ≠ 0) (x j : Nat) :
    (cuda_swab64 arch x).testBit j
      = (decide (j < 64) && x.testBit (8 * (7 - j / 8) + j % 8)) := by
  unfold cuda_swab64
  rw [if_pos ha]
  simp only [shl64, u64, u32, Nat.testBit_or, Nat.testBit_shiftLeft, Nat.testBit_mod_two_pow,
    testBit_byte_perm_0123, testBit_HIWORD]
  by_cases hj : j < 64
  · interval_cases j <;> simp
  · have d0 : ¬ j < 32 := by omega
    simp [hj, d0]

/-- Bits of the host byte swap of a 64-bit word. -/
theorem testBit_cuda_swab64_host (x j : Nat) :
    (cuda_swab64 0 x).testBit j
      = (decide (j < 64) && x.testBit (8 * (7 - j / 8) + j % 8)) := by
  have m7 : (0xff00000000000000 : Nat) = (2 ^ 8 - 1) <<< 56 := by decide
  have m6 : (0x00ff000000000000 : Nat) = (2 ^ 8 - 1) <<< 48 := by decide
  have m5 : (0x0000ff0000000000 : Nat) = (2 ^ 8 - 1) <<< 40 := by decide
  have m4 : (0x000000ff00000000 : Nat) = (2 ^ 8 - 1) <<< 32 := by decide
  have m3 : (0x00000000ff000000 : Nat) = (2 ^ 8 - 1) <<< 24 := by decide
  have m2 : (0x0000000000ff0000 : Nat) = (2 ^ 8 - 1) <<< 16 := by decide
  have m1 : (0x000000000000ff00 : Nat) = (2 ^ 8 - 1) <<< 8 := by decide
  have m0 : (0x00000000000000ff : Nat) = (2 ^ 8 - 1) <<< 0 := by decide
  have h0 : ¬ ((0 : Nat) ≠ 0) := by decide
  unfold cuda_swab64
  rw [if_neg h0, m7, m6, m5, m4, m3, m2, m1, m0]
  simp only [shl64, u64, Nat.testBit_or, testBit_and_mask, Nat.testBit_shiftLeft,
    Nat.testBit_shiftRight, Nat.testBit_mod_two_pow]
  by_cases hj : j < 64
  · interval_cases j <;> simp
  · simp [hj]

/-- Bits of the byte swap of a 64-bit word, on every target. -/
theorem testBit_cuda_swab64 (arch x j : Nat) :
    (cuda_swab64 arch x).testBit j
      = (decide (j < 64) && x.testBit (8 * (7 - j / 8) + j % 8)) := by
  by_cases ha : arch = 0
  · subst ha
    exact testBit_cuda_swab64_host x j
  · exact testBit_cuda_swab64_device ha x j

/-- The low half is the value modulo `2^32`, on every tier. -/
theorem LOWORD_eq (arch x : Nat) : _LOWORD arch x = x % 2 ^ 32 := by
  have m : (0xFFFFFFFF : Nat) = 2 ^ 32 - 1 := by decide
  unfold _LOWORD
  split_ifs with h
  · simp only [u32, __double2loint, __longlong_as_double]
    omega
  · rw [m, Nat.and_pow_two_sub_one_eq_mod]
    simp only [u32]
    omega

/-- The high half is the quotient by `2^32`, reduced to 32 bits, on every tier. -/
theorem HIWORD_eq (arch x : Nat) : _HIWORD arch x = x / 2 ^ 32 % 2 ^ 32 := by
  unfold _HIWORD
  split_ifs with h
  · simp only [u32, __double2hiint, __longlong_as_double, Nat.shiftRight_eq_div_pow]
    omega
  · simp only [u32, shr64, Nat.shiftRight_eq_div_pow]

/-- Composition places the low word in the low half and the high word in the
high half, on every tier. -/
theorem MAKE_ULONGLONG_eq (arch : Nat) {lo hi : Nat} (hlo : lo < 2 ^ 32) (hhi : hi < 2 ^ 32) :
    MAKE_ULONGLONG arch lo hi = lo + hi * 2 ^ 32 := by
  have hor : hi <<< 32 ||| lo = lo + hi * 2 ^ 32 := by
    rw [Nat.shiftLeft_eq, Nat.mul_comm hi, ← Nat.mul_add_lt_is_or hlo hi]
    omega
  have hlt : lo + hi * 2 ^ 32 < 2 ^ 64 := by omega
  have hsh : (hi <<< 32) % 2 ^ 64 = hi <<< 32 := by
    apply Nat.mod_eq_of_lt
    rw [Nat.shiftLeft_eq]
    omega
  unfold MAKE_ULONGLONG
  split_ifs with h
  · simp only [__double_as_longlong, __hiloint2double, concat32, Nat.mod_eq_of_lt hlo,
      Nat.mod_eq_of_lt hhi, hor, Nat.mod_eq_of_lt hlt]
  · have hlo64 : lo < 2 ^ 64 := by omega
    have hhi64 : hi < 2 ^ 64 := by omega
    simp only [u64, shl64, Nat.mod_eq_of_lt hlo64, Nat.mod_eq_of_lt hhi64, hsh]
    rw [Nat.lor_comm, hor]

/-- Bits of a composed 64-bit word: the low half holds the bits of the low
word, the high half the bits of the high word. -/
theorem testBit_MAKE_ULONGLONG (arch : Nat) {lo hi : Nat} (hlo : lo < 2 ^ 32)
    (hhi : hi < 2 ^ 32) (j : Nat) :
    (MAKE_ULONGLONG arch lo hi).testBit j
      = if j < 32 then lo.testBit j else hi.testBit (j - 32) := by
  rw [MAKE_ULONGLONG_eq arch hlo hhi, Nat.add_comm, Nat.mul_comm]
  exact Nat.testBit_mul_pow_two_add hi hlo j

/-- Bits of the 64-bit complement. -/
theorem testBit_not64 (a j : Nat) :
    (not64 a).testBit j = (decide (j < 64) && !a.testBit j) := by
  have hlt : a % 2 ^ 64 < 2 ^ 64 := Nat.mod_lt _ (by decide)
  have e : not64 a = 2 ^ 64 - (a % 2 ^ 64 + 1) := by
    unfold not64
    omega
  rw [e, Nat.testBit_two_pow_sub_succ hlt, Nat.testBit_mod_two_pow]
  by_cases hj : j < 64 <;> simp [hj]

/-- Masking with 64 ones reduces modulo `2^64`. -/
theorem and_mask64 (y : Nat) : y &&& 0xFFFFFFFFFFFFFFFF = y % 2 ^ 64 := by
  have m : (0xFFFFFFFFFFFFFFFF : Nat) = 2 ^ 64 - 1 := by decide
  rw [m, Nat.and_pow_two_sub_one_eq_mod]

/-- The fused select takes the bit of `b` where the bit of `a` is set and the
bit of `c` elsewhere. -/
theorem testBit_xandx (a b c j : Nat) :
    (xandx a b c).testBit j = if a.testBit j then b.testBit j else c.testBit j := by
  simp only [xandx, Nat.testBit_xor, Nat.testBit_and]
  cases a.testBit j <;> cases b.testBit j <;> cases c.testBit j <;> rfl

/-- Bits of the fused and-or: the majority of the three operand bits. -/
theorem testBit_andor (a b c j : Nat) :
    (andor a b c).testBit j
      = ((a.testBit j && b.testBit j) || (a.testBit j && c.testBit j)
          || (b.testBit j && c.testBit j)) := by
  simp only [andor, Nat.testBit_or, Nat.testBit_and]
  cases a.testBit j <;> cases b.testBit j <;> cases c.testBit j <;> rfl

/-- Bits of the generic 32-bit left rotation. -/
theorem testBit_ROTL32_generic (c : ShiftConv) {x n : Nat} (hx : x < 2 ^ 32) (hn : n < 32)
    (j : Nat) :
    (SPH_T32 (shl32 x (c.count32 n) ||| shr32 x (c.count32 (32 - n)))).testBit j
      = (decide (j < 32) && x.testBit ((j + 32 - n) % 32)) := by
  have m : SPH_C32 0xFFFFFFFF = 2 ^ 32 - 1 := by decide
  have hc : c.count32 n = n := by
    cases c
    · show min n 32 = n
      omega
    · show n % 32 = n
      omega
  have hc2 : n ≠ 0 → c.count32 (32 - n) = 32 - n := by
    intro h0
    cases c
    · show min (32 - n) 32 = 32 - n
      omega
    · show (32 - n) % 32 = 32 - n
      omega
  rw [SPH_T32, m, Nat.and_pow_two_sub_one_eq_mod]
  simp only [shl32, shr32, Nat.testBit_or, Nat.testBit_mod_two_pow, Nat.testBit_shiftLeft,
    Nat.testBit_shiftRight, hc]
  by_cases hj : j < 32
  · by_cases h0 : n = 0
    · subst h0
      have e3 : (j + 32 - 0) % 32 = j := by omega
      have e4 : x.testBit (32 + j) = false := testBit_high hx (by omega)
      rw [e3]
      cases c <;> simp [ShiftConv.count32, hj, e4]
    · rw [hc2 h0]
      by_cases hjn : n ≤ j
      · have e1 : (j + 32 - n) % 32 = j - n := by omega
        have e2 : x.testBit (32 - n + j) = false := testBit_high hx (by omega)
        simp [hj, hjn, e1, e2]
      · have e1 : (j + 32 - n) % 32 = 32 - n + j := by omega
        simp [hj, hjn, e1]
  · simp [hj]

/-- Bits of the funnel-shifter 32-bit left rotation. -/
theorem testBit_ROTL32_funnel {x n : Nat} (hn : n < 32) (j : Nat) :
    (__funnelshift_l x x n).testBit j
      = (decide (j < 32) && x.testBit ((j + 32 - n) % 32)) := by
  have hm : n % 32 = n := by omega
  simp only [__funnelshift_l, testBit_shf_l_wrap_b32, testBit_concat32, hm]
  by_cases hj : j < 32
  · by_cases hjn : n ≤ j
    · have e1 : (j + 32 - n) % 32 = 32 + j - n - 32 := by omega
      have d1 : n ≤ 32 + j := by omega
      have d2 : ¬ 32 + j - n < 32 := by omega
      have d3 : 32 + j - n < 64 := by omega
      simp [hj, e1, d1, d2, d3]
    · have e1 : (j + 32 - n) % 32 = 32 + j - n := by omega
      have d1 : n ≤ 32 + j := by omega
      have d2 : 32 + j - n < 32 := by omega
      simp [hj, e1, d1, d2]
  · simp [hj]

/-- Bits of a 32-bit left rotation: both tiers compute the same circular
shift. -/
theorem testBit_ROTL32 (arch : Nat) (c : ShiftConv) {x n : Nat} (hx : x < 2 ^ 32)
    (hn : n < 32) (j : Nat) :
    (ROTL32 arch c x n).testBit j = (decide (j < 32) && x.testBit ((j + 32 - n) % 32)) := by
  unfold ROTL32
  split_ifs with h
  · exact testBit_ROTL32_generic c hx hn j
  · exact testBit_ROTL32_funnel hn j

/-- Bits of a word whose high half has been replaced. -/
theorem testBit_REPLACE_HIWORD {y : Nat} (hy : y < 2 ^ 32) (x j : Nat) :
    (REPLACE_HIWORD x y).testBit j
      = if j < 32 then x.testBit j else y.testBit (j - 32) := by
  have m : (0xFFFFFFFF : Nat) = 2 ^ 32 - 1 := by decide
  rw [REPLACE_HIWORD, m, Nat.and_pow_two_sub_one_eq_mod]
  simp only [shl64, u64, Nat.testBit_or, Nat.testBit_mod_two_pow, Nat.testBit_shiftLeft]
  by_cases hj : j < 32
  · have d1 : ¬ 32 ≤ j := by omega
    simp [hj, d1]
  · by_cases hj64 : j < 64
    · have d1 : 32 ≤ j := by omega
      have d2 : j - 32 < 64 := by omega
      simp [hj, hj64, d1, d2]
    · have e : y.testBit (j - 32) = false := testBit_high hy (by omega)
      simp [hj, hj64, e]

/-- Bits of a word whose low half has been replaced. -/
theorem testBit_REPLACE_LOWORD {x y : Nat} (hx : x < 2 ^ 64) (hy : y < 2 ^ 32) (j : Nat) :
    (REPLACE_LOWORD x y).testBit j
      = if j < 32 then y.testBit j else x.testBit j := by
  have m : (0xFFFFFFFF00000000 : Nat) = (2 ^ 32 - 1) <<< 32 := by decide
  rw [REPLACE_LOWORD, m]
  simp only [u64, Nat.testBit_or, Nat.testBit_mod_two_pow, testBit_and_mask]
  by_cases hj : j < 32
  · have d1 : ¬ 32 ≤ j := by omega
    have d2 : j < 64 := by omega
    simp [hj, d1, d2]
  · have e : y.testBit j = false := testBit_high hy (by omega)
    by_cases hj64 : j < 64
    · have d1 : 32 ≤ j := by omega
      have d2 : j - 32 < 32 := by omega
      simp [hj, d1, d2, e]
    · have e2 : x.testBit j = false := testBit_high hx (by omega)
      simp [hj, e, e2]

/-- Replacing the high half yields a 64-bit word. -/
theorem REPLACE_HIWORD_lt {y : Nat} (hy : y < 2 ^ 32) (x : Nat) :
    REPLACE_HIWORD x y < 2 ^ 64 := by
  apply lt_of_testBit_high
  intro j hj
  have hj2 : ¬ j < 32 := by omega
  rw [testBit_REPLACE_HIWORD hy, if_neg hj2]
  exact testBit_high hy (by omega)

/-- Replacing the low half yields a 64-bit word. -/
theorem REPLACE_LOWORD_lt {x y : Nat} (hx : x < 2 ^ 64) (hy : y < 2 ^ 32) :
    REPLACE_LOWORD x y < 2 ^ 64 := by
  apply lt_of_testBit_high
  intro j hj
  have hj2 : ¬ j < 32 := by omega
  rw [testBit_REPLACE_LOWORD hx hy, if_neg hj2]
  exact testBit_high hx hj

/-- The diagnostic text contains the file name, the line number and the error
description. -/
theorem diagnostic_contains (file : String) (line : Nat) (errorString : String) :
    file.data <:+: (diagnostic file line errorString).data ∧
      (toString line).data <:+: (diagnostic file line errorString).data ∧
      errorString.data <:+: (diagnostic file line errorString).data := by
  refine ⟨⟨"Cuda error in file \x27".data,
      ("\x27 in line " ++ toString line ++ " : " ++ errorString ++ ".\n").data, ?_⟩,
    ⟨("Cuda error in file \x27" ++ file ++ "\x27 in line ").data,
      (" : " ++ errorString ++ ".\n").data, ?_⟩,
    ⟨("Cuda error in file \x27" ++ file ++ "\x27 in line " ++ toString line ++ " : ").data,
      ".\n".data, ?_⟩⟩ <;>
    simp only [diagnostic, String.data_append, List.append_assoc]

/-! ## Claims -/

/-- C1: for every 64-bit x and every n with 0 <= n < 64, the funnel-shifter
ROTL64 and ROTR64 selected for tiers from 350 (two shf.l.wrap.b32, respectively
shf.r.wrap.b32, over the 32-bit halves, the roles of the halves swapped when the
offset is at least 32, recombined as hi:lo) return the same 64-bit word as the
host formulas (x << n) | (x >> (64 - n)) and (x >> n) | (x << (64 - n)), under
either treatment of the shift by 64 that the host formula performs at n = 0. -/
theorem funnel_rotate_eq_host (arch : Nat) (c : ShiftConv) (x n : Nat)
    (ha : arch ≥ 350) (hx : x < 2 ^ 64) (hn : n < 64) :
    ROTL64 arch c x n = ROTL64_host c x n ∧ ROTR64 arch c x n = ROTR64_host c x n := by
  constructor
  · apply Nat.eq_of_testBit_eq
    intro j
    rw [ROTL64, if_pos ha, testBit_ROTL64_funnel hn j, testBit_ROTL64_generic c hx hn j]
  · apply Nat.eq_of_testBit_eq
    intro j
    rw [ROTR64, if_pos ha, testBit_ROTR64_funnel hn j, testBit_ROTR64_generic c hx hn j]

/-- Witness of C1 at tier 350, x = 0x0123456789ABCDEF and n = 40. -/
theorem funnel_rotate_eq_host_witness :
    (350 ≥ 350 ∧ 0x0123456789ABCDEF < 2 ^ 64 ∧ 40 < 64) ∧
      (ROTL64 350 .wrap 0x0123456789ABCDEF 40 = ROTL64_host .wrap 0x0123456789ABCDEF 40 ∧
        ROTR64 350 .wrap 0x0123456789ABCDEF 40 = ROTR64_host .wrap 0x0123456789ABCDEF 40) :=
  ⟨⟨by decide, by decide, by decide⟩,
    funnel_rotate_eq_host 350 .wrap 0x0123456789ABCDEF 40 (by decide) (by decide) (by decide)⟩

/-- C2: for every 64-bit x and every n with 0 <= n < 64 (n = 0 included), the
ROTL64 and ROTR64 selected for tiers from 120 below 350, which combine the two
shifted halves with a wrapping 64-bit add, return the same word as the host
formulas, which combine them with or. -/
theorem add_rotate_eq_host (arch : Nat) (c : ShiftConv) (x n : Nat)
    (ha : arch ≥ 120) (hlt : arch < 350) (hx : x < 2 ^ 64) (hn : n < 64) :
    ROTL64 arch c x n = ROTL64_host c x n ∧ ROTR64 arch c x n = ROTR64_host c x n := by
  have hb : ¬ arch ≥ 350 := Nat.not_le.mpr hlt
  constructor
  · apply Nat.eq_of_testBit_eq
    intro j
    rw [ROTL64, if_neg hb, if_pos ha, ROTL64_add_eq_generic hx hn,
      testBit_ROTL64_generic .clamp hx hn j, testBit_ROTL64_generic c hx hn j]
  · apply Nat.eq_of_testBit_eq
    intro j
    rw [ROTR64, if_neg hb, if_pos ha, ROTR64_add_eq_generic hx hn,
      testBit_ROTR64_generic .clamp hx hn j, testBit_ROTR64_generic c hx hn j]

/-- Witness of C2 at tier 200, x = 0xFFFFFFFFFFFFFFFF and n = 0. -/
theorem add_rotate_eq_host_witness :
    (200 ≥ 120 ∧ 200 < 350 ∧ 0xFFFFFFFFFFFFFFFF < 2 ^ 64 ∧ 0 < 64) ∧
      (ROTL64 200 .wrap 0xFFFFFFFFFFFFFFFF 0 = ROTL64_host .wrap 0xFFFFFFFFFFFFFFFF 0 ∧
        ROTR64 200 .wrap 0xFFFFFFFFFFFFFFFF 0 = ROTR64_host .wrap 0xFFFFFFFFFFFFFFFF 0) :=
  ⟨⟨by decide, by decide, by decide, by decide⟩,
    add_rotate_eq_host 200 .wrap 0xFFFFFFFFFFFFFFFF 0 (by decide) (by decide) (by decide)
      (by decide)⟩

/-- C3: for every 64-bit x and every n with 0 <= n < 64, the host formulas
satisfy ROTR64(ROTL64(x, n), n) = x and ROTL64(x, 0) = x. -/
theorem host_rotate_roundtrip (c : ShiftConv) (x n : Nat) (hx : x < 2 ^ 64) (hn : n < 64) :
    ROTR64_host c (ROTL64_host c x n) n = x ∧ ROTL64_host c x 0 = x := by
  have h1 := ROTR64_ROTL64_cancel 0 0 c c hx hn
  have h2 := ROTL64_zero 0 c hx
  simp only [ROTR64, ROTL64, ge_iff_le, Nat.reduceLeDiff, if_false] at h1 h2
  exact ⟨h1, h2⟩

/-- Witness of C3 at x = 0x0123456789ABCDEF and n = 8. -/
theorem host_rotate_roundtrip_witness :
    (0x0123456789ABCDEF < 2 ^ 64 ∧ 8 < 64) ∧
      (ROTR64_host .clamp (ROTL64_host .clamp 0x0123456789ABCDEF 8) 8 = 0x0123456789ABCDEF ∧
        ROTL64_host .clamp 0x0123456789ABCDEF 0 = 0x0123456789ABCDEF) :=
  ⟨⟨by decide, by decide⟩,
    host_rotate_roundtrip .clamp 0x0123456789ABCDEF 8 (by decide) (by decide)⟩

/-- C4: ROTL64 is a circular left rotation on every tier: for every 64-bit x,
every n with 0 <= n < 64 and every bit index i < 64, bit ((i + n) mod 64) of
ROTL64(x, n) is bit i of x, and the result is again a 64-bit word; in
particular ROTL64(0x0123456789ABCDEF, 8) = 0x23456789ABCDEF01. -/
theorem ROTL64_circular (arch : Nat) (c : ShiftConv) (x n i : Nat)
    (hx : x < 2 ^ 64) (hn : n < 64) (hi : i < 64) :
    (ROTL64 arch c x n).testBit ((i + n) % 64) = x.testBit i ∧
      ROTL64 arch c x n < 2 ^ 64 ∧
      ROTL64 arch c 0x0123456789ABCDEF 8 = 0x23456789ABCDEF01 := by
  refine ⟨?_, ROTL64_lt arch c hx hn, ?_⟩
  · rw [testBit_ROTL64 arch c hx hn]
    have e : ((i + n) % 64 + 64 - n) % 64 = i := by omega
    have d : (i + n) % 64 < 64 := by omega
    rw [e]
    simp [d]
  · rw [ROTL64_tier_eq arch 0 c .clamp (by decide) (by decide)]
    decide

/-- Witness of C4 at tier 350, x = 0x0123456789ABCDEF, n = 8 and bit 60. -/
theorem ROTL64_circular_witness :
    (0x0123456789ABCDEF < 2 ^ 64 ∧ 8 < 64 ∧ 60 < 64) ∧
      ((ROTL64 350 .clamp 0x0123456789ABCDEF 8).testBit ((60 + 8) % 64)
          = (0x0123456789ABCDEF : Nat).testBit 60 ∧
        ROTL64 350 .clamp 0x0123456789ABCDEF 8 < 2 ^ 64 ∧
        ROTL64 350 .clamp 0x0123456789ABCDEF 8 = 0x23456789ABCDEF01) :=
  ⟨⟨by decide, by decide, by decide⟩,
    ROTL64_circular 350 .clamp 0x0123456789ABCDEF 8 60 (by decide) (by decide) (by decide)⟩

/-- C5: byte swap is an involution at both widths, on the device and on the
host: for every 32-bit x, cuda_swab32(cuda_swab32(x)) = x, and for every 64-bit
y, cuda_swab64(cuda_swab64(y)) = y. -/
theorem cuda_swab_involution (arch x y : Nat) (hx : x < 2 ^ 32) (hy : y < 2 ^ 64) :
    cuda_swab32 arch (cuda_swab32 arch x) = x ∧ cuda_swab64 arch (cuda_swab64 arch y) = y := by
  constructor
  · apply Nat.eq_of_testBit_eq
    intro j
    rw [testBit_cuda_swab32, testBit_cuda_swab32]
    by_cases hj : j < 32
    · have e : 8 * (3 - (8 * (3 - j / 8) + j % 8) / 8) + (8 * (3 - j / 8) + j % 8) % 8 = j := by
        omega
      have d : 8 * (3 - j / 8) + j % 8 < 32 := by omega
      rw [e]
      simp [hj, d]
    · have e : x.testBit j = false := testBit_high hx (by omega)
      simp [hj, e]
  · apply Nat.eq_of_testBit_eq
    intro j
    rw [testBit_cuda_swab64, testBit_cuda_swab64]
    by_cases hj : j < 64
    · have e : 8 * (7 - (8 * (7 - j / 8) + j % 8) / 8) + (8 * (7 - j / 8) + j % 8) % 8 = j := by
        omega
      have d : 8 * (7 - j / 8) + j % 8 < 64 := by omega
      rw [e]
      simp [hj, d]
    · have e : y.testBit j = false := testBit_high hy (by omega)
      simp [hj, e]

/-- Witness of C5 on the device path at 0x01234567 and 0x0123456789ABCDEF. -/
theorem cuda_swab_involution_witness :
    (0x01234567 < 2 ^ 32 ∧ 0x0123456789ABCDEF < 2 ^ 64) ∧
      (cuda_swab32 350 (cuda_swab32 350 0x01234567) = 0x01234567 ∧
        cuda_swab64 350 (cuda_swab64 350 0x0123456789ABCDEF) = 0x0123456789ABCDEF) :=
  ⟨⟨by decide, by decide⟩,
    cuda_swab_involution 350 0x01234567 0x0123456789ABCDEF (by decide) (by decide)⟩

/-- C6: byte swap reverses byte order, on the device and on the host: for
every 64-bit x and every i < 8, byte i of cuda_swab64(x) is byte 7 - i of x;
for every 32-bit y and every k < 4, byte k of cuda_swab32(y) is byte 3 - k of
y; in particular cuda_swab64(0x0123456789ABCDEF) = 0xEFCDAB8967452301. -/
theorem cuda_swab_reverses_bytes (arch x y i k : Nat) (_hx : x < 2 ^ 64) (_hy : y < 2 ^ 32)
    (hi : i < 8) (hk : k < 4) :
    byteOf (cuda_swab64 arch x) i = byteOf x (7 - i) ∧
      byteOf (cuda_swab32 arch y) k = byteOf y (3 - k) ∧
      cuda_swab64 arch 0x0123456789ABCDEF = 0xEFCDAB8967452301 := by
  refine ⟨?_, ?_, ?_⟩
  · apply Nat.eq_of_testBit_eq
    intro j
    rw [testBit_byteOf, testBit_byteOf, testBit_cuda_swab64]
    by_cases hj : j < 8
    · have e : 8 * (7 - (8 * i + j) / 8) + (8 * i + j) % 8 = 8 * (7 - i) + j := by omega
      have d : 8 * i + j < 64 := by omega
      rw [e]
      simp [hj, d]
    · simp [hj]
  · apply Nat.eq_of_testBit_eq
    intro j
    rw [testBit_byteOf, testBit_byteOf, testBit_cuda_swab32]
    by_cases hj : j < 8
    · have e : 8 * (3 - (8 * k + j) / 8) + (8 * k + j) % 8 = 8 * (3 - k) + j := by omega
      have d : 8 * k + j < 32 := by omega
      rw [e]
      simp [hj, d]
    · simp [hj]
  · apply Nat.eq_of_testBit_eq
    intro j
    rw [testBit_cuda_swab64 arch, ← testBit_cuda_swab64 0]
    have h : cuda_swab64 0 0x0123456789ABCDEF = 0xEFCDAB8967452301 := by decide
    rw [h]

/-- Witness of C6 on the host path at 0x0123456789ABCDEF, byte 2, and at
0x01234567, byte 1. -/
theorem cuda_swab_reverses_bytes_witness :
    (0x0123456789ABCDEF < 2 ^ 64 ∧ 0x01234567 < 2 ^ 32 ∧ 2 < 8 ∧ 1 < 4) ∧
      (byteOf (cuda_swab64 0 0x0123456789ABCDEF) 2 = byteOf 0x0123456789ABCDEF (7 - 2) ∧
        byteOf (cuda_swab32 0 0x01234567) 1 = byteOf 0x01234567 (3 - 1) ∧
        cuda_swab64 0 0x0123456789ABCDEF = 0xEFCDAB8967452301) :=
  ⟨⟨by decide, by decide, by decide, by decide⟩,
    cuda_swab_reverses_bytes 0 0x0123456789ABCDEF 0x01234567 2 1 (by decide) (by decide)
      (by decide) (by decide)⟩

/-- C7: the device and host byte swaps agree on every input: for every 32-bit
x the device cuda_swab32, __byte_perm(x, x, 0x0123), equals the host
shift-and-mask definition, and for every 64-bit y the device cuda_swab64,
(__byte_perm(low32(y), 0, 0x0123) << 32) | __byte_perm(_HIWORD(y), 0, 0x0123),
equals the host eight-term mask-and-shift definition. -/
theorem cuda_swab_device_eq_host (arch x y : Nat) (ha : arch ≠ 0) (_hx : x < 2 ^ 32)
    (_hy : y < 2 ^ 64) :
    cuda_swab32 arch x = cuda_swab32 0 x ∧ cuda_swab64 arch y = cuda_swab64 0 y := by
  constructor
  · apply Nat.eq_of_testBit_eq
    intro j
    rw [testBit_cuda_swab32_device ha, testBit_cuda_swab32_host]
  · apply Nat.eq_of_testBit_eq
    intro j
    rw [testBit_cuda_swab64_device ha, testBit_cuda_swab64_host]

/-- Witness of C7 at tier 350, 0x01234567 and 0x0123456789ABCDEF. -/
theorem cuda_swab_device_eq_host_witness :
    (350 ≠ 0 ∧ 0x01234567 < 2 ^ 32 ∧ 0x0123456789ABCDEF < 2 ^ 64) ∧
      (cuda_swab32 350 0x01234567 = cuda_swab32 0 0x01234567 ∧
        cuda_swab64 350 0x0123456789ABCDEF = cuda_swab64 0 0x0123456789ABCDEF) :=
  ⟨⟨by decide, by decide, by decide⟩,
    cuda_swab_device_eq_host 350 0x01234567 0x0123456789ABCDEF (by decide) (by decide)
      (by decide)⟩

/-- C8: for every 64-bit x, on every tier,
MAKE_ULONGLONG(_LOWORD(x), _HIWORD(x)) = x. -/
theorem MAKE_ULONGLONG_LOWORD_HIWORD (arch x : Nat) (hx : x < 2 ^ 64) :
    MAKE_ULONGLONG arch (_LOWORD arch x) (_HIWORD arch x) = x := by
  rw [LOWORD_eq, HIWORD_eq,
    MAKE_ULONGLONG_eq arch (Nat.mod_lt _ (by decide)) (Nat.mod_lt _ (by decide))]
  omega

/-- Witness of C8 at tier 350 and x = 0x0123456789ABCDEF. -/
theorem MAKE_ULONGLONG_LOWORD_HIWORD_witness :
    0x0123456789ABCDEF < 2 ^ 64 ∧
      MAKE_ULONGLONG 350 (_LOWORD 350 0x0123456789ABCDEF) (_HIWORD 350 0x0123456789ABCDEF)
        = 0x0123456789ABCDEF :=
  ⟨by decide, MAKE_ULONGLONG_LOWORD_HIWORD 350 0x0123456789ABCDEF (by decide)⟩

/-- C9: extraction inverts composition and the halves land where stated, on
every tier: for 32-bit words lo and hi, MAKE_ULONGLONG(lo, hi) = lo + hi * 2^32,
_LOWORD(MAKE_ULONGLONG(lo, hi)) = lo and _HIWORD(MAKE_ULONGLONG(lo, hi)) = hi;
every bit of the low half is the bit of lo at that position and every bit of
the high half is the bit of hi 32 positions lower, so no bit of lo reaches the
high half and no bit of hi reaches the low half. -/
theorem LOWORD_HIWORD_MAKE_ULONGLONG (arch lo hi : Nat) (hlo : lo < 2 ^ 32)
    (hhi : hi < 2 ^ 32) :
    MAKE_ULONGLONG arch lo hi = lo + hi * 2 ^ 32 ∧
      _LOWORD arch (MAKE_ULONGLONG arch lo hi) = lo ∧
      _HIWORD arch (MAKE_ULONGLONG arch lo hi) = hi ∧
      (∀ j, j < 32 → (MAKE_ULONGLONG arch lo hi).testBit j = lo.testBit j) ∧
      (∀ j, (MAKE_ULONGLONG arch lo hi).testBit (32 + j) = hi.testBit j) := by
  refine ⟨MAKE_ULONGLONG_eq arch hlo hhi, ?_, ?_, ?_, ?_⟩
  · rw [LOWORD_eq, MAKE_ULONGLONG_eq arch hlo hhi]
    omega
  · rw [HIWORD_eq, MAKE_ULONGLONG_eq arch hlo hhi]
    omega
  · intro j hj
    rw [testBit_MAKE_ULONGLONG arch hlo hhi, if_pos hj]
  · intro j
    have h : ¬ 32 + j < 32 := by omega
    rw [testBit_MAKE_ULONGLONG arch hlo hhi, if_neg h, Nat.add_sub_cancel_left]

/-- Witness of C9 on the generic path at lo = 0x89ABCDEF and hi = 0x01234567. -/
theorem LOWORD_HIWORD_MAKE_ULONGLONG_witness :
    (0x89ABCDEF < 2 ^ 32 ∧ 0x01234567 < 2 ^ 32) ∧
      (MAKE_ULONGLONG 0 0x89ABCDEF 0x01234567 = 0x89ABCDEF + 0x01234567 * 2 ^ 32 ∧
        _LOWORD 0 (MAKE_ULONGLONG 0 0x89ABCDEF 0x01234567) = 0x89ABCDEF ∧
        _HIWORD 0 (MAKE_ULONGLONG 0 0x89ABCDEF 0x01234567) = 0x01234567 ∧
        (∀ j, j < 32 →
          (MAKE_ULONGLONG 0 0x89ABCDEF 0x01234567).testBit j
            = (0x89ABCDEF : Nat).testBit j) ∧
        (∀ j, (MAKE_ULONGLONG 0 0x89ABCDEF 0x01234567).testBit (32 + j)
          = (0x01234567 : Nat).testBit j)) :=
  ⟨⟨by decide, by decide⟩,
    LOWORD_HIWORD_MAKE_ULONGLONG 0 0x89ABCDEF 0x01234567 (by decide) (by decide)⟩

/-- C10: for all 64-bit a, b, c, with the inline assembly and with the generic
definition alike, xor3(a, b, c) = a xor b xor c, and xor3 returns the same value
for all six orderings of its operands. -/
theorem xor3_eq_and_symmetric (asmOpts : Bool) (a b c : Nat) :
    xor3 asmOpts a b c = a ^^^ b ^^^ c ∧
      xor3 asmOpts a b c = xor3 asmOpts a c b ∧
      xor3 asmOpts a b c = xor3 asmOpts b a c ∧
      xor3 asmOpts a b c = xor3 asmOpts b c a ∧
      xor3 asmOpts a b c = xor3 asmOpts c a b ∧
      xor3 asmOpts a b c = xor3 asmOpts c b a := by
  have key : ∀ p q r : Nat, xor3 asmOpts p q r = p ^^^ q ^^^ r := by
    intro p q r
    cases asmOpts
    · simp [xor3]
    · simp [xor3, Nat.xor_assoc]
  rw [key a b c, key a c b, key b a c, key b c a, key c a b, key c b a]
  refine ⟨rfl, ?_, ?_, ?_, ?_, ?_⟩ <;>
    (apply Nat.eq_of_testBit_eq; intro j; simp only [Nat.testBit_xor]
     cases a.testBit j <;> cases b.testBit j <;> cases c.testBit j <;> rfl)


/-- C11: the optimized (USE_XOR_ASM_OPTS = 1) and generic (USE_XOR_ASM_OPTS = 0)
forms of the multi-operand xors agree on every input: xor1(a, b) = a ^ b; the
assembly xor3, which groups as a ^ (b ^ c), equals a ^ b ^ c; the assembly xor8,
which accumulates as ((((((g ^ h) ^ f) ^ e) ^ d) ^ c) ^ b) ^ a, equals
a ^ b ^ c ^ d ^ e ^ f ^ g ^ h. -/
theorem xor_asm_eq_generic (a b c d e f g h : Nat) :
    (xor1 true a b = a ^^^ b ∧ xor1 true a b = xor1 false a b) ∧
      (xor3 true a b c = a ^^^ (b ^^^ c) ∧ xor3 false a b c = a ^^^ b ^^^ c ∧
        xor3 true a b c = xor3 false a b c) ∧
      (xor8 true a b c d e f g h = ((((((g ^^^ h) ^^^ f) ^^^ e) ^^^ d) ^^^ c) ^^^ b) ^^^ a ∧
        xor8 false a b c d e f g h = a ^^^ b ^^^ c ^^^ d ^^^ e ^^^ f ^^^ g ^^^ h ∧
        xor8 true a b c d e f g h = xor8 false a b c d e f g h) := by
  refine ⟨⟨rfl, rfl⟩, ⟨rfl, rfl, ?_⟩, ⟨rfl, rfl, ?_⟩⟩
  · simp only [xor3, if_true, Bool.false_eq_true, if_false]
    exact (Nat.xor_assoc a b c).symm
  · simp only [xor8, if_true, Bool.false_eq_true, if_false]
    apply Nat.eq_of_testBit_eq
    intro j
    simp only [Nat.testBit_xor]
    cases a.testBit j <;> cases b.testBit j <;> cases c.testBit j <;> cases d.testBit j <;>
      cases e.testBit j <;> cases f.testBit j <;> cases g.testBit j <;> cases h.testBit j <;>
      rfl

/-- C12: self-cancellation, with the inline assembly and with the generic
definitions alike: xor3(0, 0, x) = x for every x, and
xor8(a, a, b, b, c, c, d, d) = 0 for all a, b, c, d. -/
theorem xor_self_cancel (asmOpts : Bool) (x a b c d : Nat) :
    xor3 asmOpts 0 0 x = x ∧ xor8 asmOpts a a b b c c d d = 0 := by
  constructor
  · cases asmOpts <;> simp [xor3]
  · apply Nat.eq_of_testBit_eq
    intro j
    cases asmOpts <;>
      (simp only [xor8, if_true, Bool.false_eq_true, if_false, Nat.testBit_xor,
         Nat.zero_testBit]
       cases a.testBit j <;> cases b.testBit j <;> cases c.testBit j <;>
         cases d.testBit j <;> rfl)

/-- C13: for all 64-bit a, b, c, xandx(a, b, c) = (((c ^ b) & a) ^ c), the value
of the assembly sequence m = b ^ c; n = m & a; result = n ^ c, and in the
degenerate-mask case xandx(0, b, c) = c. -/
theorem xandx_formula (a b c : Nat) :
    xandx a b c = (((c ^^^ b) &&& a) ^^^ c) ∧ xandx 0 b c = c := by
  constructor
  · simp only [xandx, Nat.xor_comm b c]
  · simp [xandx]

/-- C14: for all 64-bit a, b, c, andor(a, b, c) = (a & b) | ((a | b) & c), the
value of the assembly sequence m = a & b; n = a | b; o = n & c;
result = m | o. -/
theorem andor_formula (a b c : Nat) :
    andor a b c = (a &&& b) ||| ((a ||| b) &&& c) := by
  simp only [andor]

/-- C15: the width mask 0xFFFFFFFFFFFFFFFF never changes a 64-bit value: for
every 64-bit x, sph_t64(x) = x, and for every n with 0 <= n < 64,
shl_t64(x, n) = (x * 2^n) mod 2^64 and shr_t64(x, n) = floor(x / 2^n); all
three results are 64-bit words. -/
theorem masked_shift_identity (x n : Nat) (hx : x < 2 ^ 64) (hn : n < 64) :
    sph_t64 x = x ∧
      shl_t64 x n = (x * 2 ^ n) % 2 ^ 64 ∧
      shr_t64 x n = x / 2 ^ n ∧
      sph_t64 x < 2 ^ 64 ∧ shl_t64 x n < 2 ^ 64 ∧ shr_t64 x n < 2 ^ 64 := by
  have hmin : min n 64 = n := by omega
  have hdiv : x / 2 ^ n < 2 ^ 64 := lt_of_le_of_lt (Nat.div_le_self _ _) hx
  have h1 : sph_t64 x = x := by
    rw [sph_t64, and_mask64, Nat.mod_eq_of_lt hx]
  have h2 : shl_t64 x n = (x * 2 ^ n) % 2 ^ 64 := by
    simp only [shl_t64, ptx_shl_b64, and_mask64, hmin, Nat.shiftLeft_eq, Nat.mod_mod]
  have h3 : shr_t64 x n = x / 2 ^ n := by
    simp only [shr_t64, ptx_shr_b64, and_mask64, hmin, Nat.shiftRight_eq_div_pow]
    exact Nat.mod_eq_of_lt hdiv
  refine ⟨h1, h2, h3, ?_, ?_, ?_⟩
  · rw [h1]
    exact hx
  · rw [h2]
    exact Nat.mod_lt _ (by decide)
  · rw [h3]
    exact hdiv

/-- Witness of C15 at x = 0x8000000000000001 and n = 1. -/
theorem masked_shift_identity_witness :
    (0x8000000000000001 < 2 ^ 64 ∧ 1 < 64) ∧
      (sph_t64 0x8000000000000001 = 0x8000000000000001 ∧
        shl_t64 0x8000000000000001 1 = (0x8000000000000001 * 2 ^ 1) % 2 ^ 64 ∧
        shr_t64 0x8000000000000001 1 = 0x8000000000000001 / 2 ^ 1 ∧
        sph_t64 0x8000000000000001 < 2 ^ 64 ∧ shl_t64 0x8000000000000001 1 < 2 ^ 64 ∧
        shr_t64 0x8000000000000001 1 < 2 ^ 64) :=
  ⟨⟨by decide, by decide⟩,
    masked_shift_identity 0x8000000000000001 1 (by decide) (by decide)⟩

/-- C16: the two ROTL32 variants agree: for every 32-bit x and every n with
0 <= n < 32 (n = 0 included), the funnel-shifter form __funnelshift_l(x, x, n)
selected from tier 350 equals the generic form
SPH_T32((x << n) | (x >> (32 - n))) selected below tier 350, and both are the
circular left rotation of x by n: bit ((i + n) mod 32) of the result is bit i of
x, and the result is below 2^32. -/
theorem ROTL32_variants_agree (hiArch loArch : Nat) (c : ShiftConv) (x n i : Nat)
    (hge : hiArch ≥ 350) (hlo : loArch < 350) (hx : x < 2 ^ 32) (hn : n < 32)
    (hi : i < 32) :
    ROTL32 hiArch c x n = ROTL32 loArch c x n ∧
      (ROTL32 loArch c x n).testBit ((i + n) % 32) = x.testBit i ∧
      ROTL32 loArch c x n < 2 ^ 32 := by
  have hhi : ¬ hiArch < 350 := Nat.not_lt.mpr hge
  have hbits : ∀ j, (ROTL32 loArch c x n).testBit j
      = (decide (j < 32) && x.testBit ((j + 32 - n) % 32)) := by
    intro j
    rw [ROTL32, if_pos hlo]
    exact testBit_ROTL32_generic c hx hn j
  refine ⟨?_, ?_, ?_⟩
  · apply Nat.eq_of_testBit_eq
    intro j
    rw [hbits j, ROTL32, if_neg hhi]
    exact testBit_ROTL32_funnel hn j
  · have e : ((i + n) % 32 + 32 - n) % 32 = i := by omega
    have d : (i + n) % 32 < 32 := by omega
    rw [hbits, e]
    simp [d]
  · apply lt_of_testBit_high
    intro j hj
    have hj2 : ¬ j < 32 := by omega
    rw [hbits j]
    simp [hj2]

/-- Witness of C16 at tiers 350 and 300, x = 0x80000001, n = 0 and bit 31. -/
theorem ROTL32_variants_agree_witness :
    (350 ≥ 350 ∧ 300 < 350 ∧ 0x80000001 < 2 ^ 32 ∧ 0 < 32 ∧ 31 < 32) ∧
      (ROTL32 350 .wrap 0x80000001 0 = ROTL32 300 .wrap 0x80000001 0 ∧
        (ROTL32 300 .wrap 0x80000001 0).testBit ((31 + 0) % 32)
          = (0x80000001 : Nat).testBit 31 ∧
        ROTL32 300 .wrap 0x80000001 0 < 2 ^ 32) :=
  ⟨⟨by decide, by decide, by decide, by decide, by decide⟩,
    ROTL32_variants_agree 350 300 .wrap 0x80000001 0 31 (by decide) (by decide) (by decide)
      (by decide) (by decide)⟩

/-- C18: xandx is a bitwise select with a as the mask: for all 64-bit a, b, c,
xandx(a, b, c) = (a & b) | (~a & c); at every bit position the result takes the
bit of b where the bit of a is 1 and the bit of c where it is 0; so
xandx(all-ones, b, c) = b and xandx(a, b, b) = b. -/
theorem xandx_select (a b c : Nat) (ha : a < 2 ^ 64) (hb : b < 2 ^ 64) (hc : c < 2 ^ 64) :
    xandx a b c = (a &&& b) ||| (not64 a &&& c) ∧
      (∀ j, (xandx a b c).testBit j = if a.testBit j then b.testBit j else c.testBit j) ∧
      xandx 0xFFFFFFFFFFFFFFFF b c = b ∧
      xandx a b b = b := by
  refine ⟨?_, testBit_xandx a b c, ?_, ?_⟩
  · apply Nat.eq_of_testBit_eq
    intro j
    rw [testBit_xandx]
    simp only [Nat.testBit_or, Nat.testBit_and, testBit_not64]
    by_cases hj : j < 64
    · simp only [hj, decide_True, Bool.true_and]
      cases a.testBit j <;> cases b.testBit j <;> cases c.testBit j <;> rfl
    · have ea : a.testBit j = false := testBit_high ha (by omega)
      have ec : c.testBit j = false := testBit_high hc (by omega)
      simp [ea, ec]
  · have m : (0xFFFFFFFFFFFFFFFF : Nat) = 2 ^ 64 - 1 := by decide
    apply Nat.eq_of_testBit_eq
    intro j
    rw [testBit_xandx, m, Nat.testBit_two_pow_sub_one]
    by_cases hj : j < 64
    · simp [hj]
    · have eb : b.testBit j = false := testBit_high hb (by omega)
      have ec : c.testBit j = false := testBit_high hc (by omega)
      simp [hj, eb, ec]
  · apply Nat.eq_of_testBit_eq
    intro j
    rw [testBit_xandx]
    cases a.testBit j <;> rfl

/-- Witness of C18 at a = 0x00FF00FF00FF00FF, b = 0x0123456789ABCDEF and
c = 0xFEDCBA9876543210. -/
theorem xandx_select_witness :
    (0x00FF00FF00FF00FF < 2 ^ 64 ∧ 0x0123456789ABCDEF < 2 ^ 64 ∧
        0xFEDCBA9876543210 < 2 ^ 64) ∧
      (xandx 0x00FF00FF00FF00FF 0x0123456789ABCDEF 0xFEDCBA9876543210
          = (0x00FF00FF00FF00FF &&& 0x0123456789ABCDEF)
            ||| (not64 0x00FF00FF00FF00FF &&& 0xFEDCBA9876543210) ∧
        (∀ j, (xandx 0x00FF00FF00FF00FF 0x0123456789ABCDEF 0xFEDCBA9876543210).testBit j
          = if (0x00FF00FF00FF00FF : Nat).testBit j then (0x0123456789ABCDEF : Nat).testBit j
            else (0xFEDCBA9876543210 : Nat).testBit j) ∧
        xandx 0xFFFFFFFFFFFFFFFF 0x0123456789ABCDEF 0xFEDCBA9876543210
          = 0x0123456789ABCDEF ∧
        xandx 0x00FF00FF00FF00FF 0x0123456789ABCDEF 0x0123456789ABCDEF
          = 0x0123456789ABCDEF) :=
  ⟨⟨by decide, by decide, by decide⟩,
    xandx_select 0x00FF00FF00FF00FF 0x0123456789ABCDEF 0xFEDCBA9876543210 (by decide)
      (by decide) (by decide)⟩

/-- C19: andor is the bitwise majority of its three operands and is therefore
symmetric although its formula is not: for all 64-bit a, b, c,
andor(a, b, c) = (a & b) | (a & c) | (b & c), and andor returns the same value
under every permutation of (a, b, c). -/
theorem andor_majority (a b c : Nat) :
    andor a b c = (a &&& b) ||| (a &&& c) ||| (b &&& c) ∧
      andor a b c = andor a c b ∧
      andor a b c = andor b a c ∧
      andor a b c = andor b c a ∧
      andor a b c = andor c a b ∧
      andor a b c = andor c b a := by
  have perm : ∀ p q r : Nat, andor p q r = andor q p r ∧ andor p q r = andor p r q := by
    intro p q r
    constructor <;>
      (apply Nat.eq_of_testBit_eq; intro j
       rw [testBit_andor, testBit_andor]
       cases p.testBit j <;> cases q.testBit j <;> cases r.testBit j <;> rfl)
  refine ⟨?_, (perm a b c).2, (perm a b c).1, ?_, ?_, ?_⟩
  · apply Nat.eq_of_testBit_eq
    intro j
    rw [testBit_andor]
    simp only [Nat.testBit_or, Nat.testBit_and]
  · rw [(perm a b c).1, (perm b a c).2]
  · rw [(perm a b c).2, (perm a c b).1]
  · rw [(perm a b c).2, (perm a c b).1, (perm c a b).2]

/-- C20: half-word replacement changes only the named half, on every tier: for
every 64-bit x and 32-bit y, _HIWORD(REPLACE_HIWORD(x, y)) = y and
_LOWORD(REPLACE_HIWORD(x, y)) = _LOWORD(x); _LOWORD(REPLACE_LOWORD(x, y)) = y and
_HIWORD(REPLACE_LOWORD(x, y)) = _HIWORD(x); consequently
REPLACE_HIWORD(REPLACE_LOWORD(x, lo), hi) = MAKE_ULONGLONG(lo, hi) for all
32-bit lo and hi. -/
theorem REPLACE_word_frame (arch x y lo hi : Nat) (hx : x < 2 ^ 64) (hy : y < 2 ^ 32)
    (hlo : lo < 2 ^ 32) (hhi : hi < 2 ^ 32) :
    _HIWORD arch (REPLACE_HIWORD x y) = y ∧
      _LOWORD arch (REPLACE_HIWORD x y) = _LOWORD arch x ∧
      _LOWORD arch (REPLACE_LOWORD x y) = y ∧
      _HIWORD arch (REPLACE_LOWORD x y) = _HIWORD arch x ∧
      REPLACE_HIWORD (REPLACE_LOWORD x lo) hi = MAKE_ULONGLONG arch lo hi := by
  refine ⟨?_, ?_, ?_, ?_, ?_⟩
  · apply Nat.eq_of_testBit_eq
    intro j
    rw [testBit_HIWORD, testBit_REPLACE_HIWORD hy]
    have d : ¬ 32 + j < 32 := by omega
    rw [if_neg d, Nat.add_sub_cancel_left]
    by_cases hj : j < 32
    · simp [hj]
    · have e : y.testBit j = false := testBit_high hy (by omega)
      simp [hj, e]
  · apply Nat.eq_of_testBit_eq
    intro j
    rw [testBit_LOWORD, testBit_LOWORD, testBit_REPLACE_HIWORD hy]
    by_cases hj : j < 32
    · simp [hj]
    · simp [hj]
  · apply Nat.eq_of_testBit_eq
    intro j
    rw [testBit_LOWORD, testBit_REPLACE_LOWORD hx hy]
    by_cases hj : j < 32
    · simp [hj]
    · have e : y.testBit j = false := testBit_high hy (by omega)
      simp [hj, e]
  · apply Nat.eq_of_testBit_eq
    intro j
    rw [testBit_HIWORD, testBit_HIWORD, testBit_REPLACE_LOWORD hx hy]
    have d : ¬ 32 + j < 32 := by omega
    rw [if_neg d]
  · apply Nat.eq_of_testBit_eq
    intro j
    rw [testBit_REPLACE_HIWORD hhi, testBit_MAKE_ULONGLONG arch hlo hhi,
      testBit_REPLACE_LOWORD hx hlo]
    by_cases hj : j < 32
    · simp [hj]
    · simp [hj]

/-- Witness of C20 at tier 350, x = 0x0123456789ABCDEF, y = 0xAAAAAAAA,
lo = 0x89ABCDEF and hi = 0x01234567. -/
theorem REPLACE_word_frame_witness :
    (0x0123456789ABCDEF < 2 ^ 64 ∧ 0xAAAAAAAA < 2 ^ 32 ∧ 0x89ABCDEF < 2 ^ 32 ∧
        0x01234567 < 2 ^ 32) ∧
      (_HIWORD 350 (REPLACE_HIWORD 0x0123456789ABCDEF 0xAAAAAAAA) = 0xAAAAAAAA ∧
        _LOWORD 350 (REPLACE_HIWORD 0x0123456789ABCDEF 0xAAAAAAAA)
          = _LOWORD 350 0x0123456789ABCDEF ∧
        _LOWORD 350 (REPLACE_LOWORD 0x0123456789ABCDEF 0xAAAAAAAA) = 0xAAAAAAAA ∧
        _HIWORD 350 (REPLACE_LOWORD 0x0123456789ABCDEF 0xAAAAAAAA)
          = _HIWORD 350 0x0123456789ABCDEF ∧
        REPLACE_HIWORD (REPLACE_LOWORD 0x0123456789ABCDEF 0x89ABCDEF) 0x01234567
          = MAKE_ULONGLONG 350 0x89ABCDEF 0x01234567) :=
  ⟨⟨by decide, by decide, by decide, by decide⟩,
    REPLACE_word_frame 350 0x0123456789ABCDEF 0xAAAAAAAA 0x89ABCDEF 0x01234567 (by decide)
      (by decide) (by decide) (by decide)⟩

/-- C17: CUDA_SAFE_CALL(call) as a function of the status err the call returns,
for every call.  When err is cudaSuccess the process keeps running in exactly
the state the call left, so nothing is written to the diagnostic stream.  When
err is not cudaSuccess exactly one diagnostic, which contains the file, the
line and the error description of err, is appended to stderr and the process
terminates with the non-zero status EXIT_FAILURE.  Termination happens if and
only if err is not cudaSuccess.  The call is evaluated exactly once: the final
state is the state after one evaluation of the call, apart from stderr, and
whenever a counter is advanced by one by every evaluation of the call, it has
advanced by one. -/
theorem CUDA_SAFE_CALL_contract {σ : Type} (FILE : String) (LINE : Nat)
    (cudaGetErrorString : Nat → String) (call : Proc σ → Nat × Proc σ) (p : Proc σ) :
    ((call p).1 = cudaSuccess →
        CUDA_SAFE_CALL FILE LINE cudaGetErrorString call p = Outcome.running (call p).2) ∧
      ((call p).1 ≠ cudaSuccess →
        CUDA_SAFE_CALL FILE LINE cudaGetErrorString call p
          = Outcome.exited EXIT_FAILURE
              { env := (call p).2.env
                stderr := (call p).2.stderr
                  ++ [diagnostic FILE LINE (cudaGetErrorString (call p).1)] }) ∧
      (FILE.data <:+: (diagnostic FILE LINE (cudaGetErrorString (call p).1)).data ∧
        (toString LINE).data <:+: (diagnostic FILE LINE (cudaGetErrorString (call p).1)).data ∧
        (cudaGetErrorString (call p).1).data
          <:+: (diagnostic FILE LINE (cudaGetErrorString (call p).1)).data) ∧
      EXIT_FAILURE ≠ 0 ∧
      ((CUDA_SAFE_CALL FILE LINE cudaGetErrorString call p).terminated = true
        ↔ (call p).1 ≠ cudaSuccess) ∧
      (CUDA_SAFE_CALL FILE LINE cudaGetErrorString call p).proc.env = (call p).2.env ∧
      (∀ count : σ → Nat, (∀ q, count (call q).2.env = count q.env + 1) →
        count (CUDA_SAFE_CALL FILE LINE cudaGetErrorString call p).proc.env
          = count p.env + 1) := by
  have henv : (CUDA_SAFE_CALL FILE LINE cudaGetErrorString call p).proc.env
      = (call p).2.env := by
    by_cases h : cudaSuccess ≠ (call p).1
    · simp only [CUDA_SAFE_CALL, if_pos h, Outcome.proc, fprintf_stderr]
    · simp only [CUDA_SAFE_CALL, if_neg h, Outcome.proc]
  refine ⟨?_, ?_, diagnostic_contains _ _ _, by decide, ?_, henv, ?_⟩
  · intro h
    have h2 : ¬ cudaSuccess ≠ (call p).1 := fun hne => hne h.symm
    simp only [CUDA_SAFE_CALL, if_neg h2]
  · intro h
    have h2 : cudaSuccess ≠ (call p).1 := fun he => h he.symm
    simp only [CUDA_SAFE_CALL, if_pos h2, fprintf_stderr]
  · by_cases h : cudaSuccess ≠ (call p).1
    · have h3 : (call p).1 ≠ cudaSuccess := fun he => h he.symm
      simp only [CUDA_SAFE_CALL, if_pos h, Outcome.terminated, h3, ne_eq, not_false_eq_true]
    · have h3 : ¬ (call p).1 ≠ cudaSuccess := fun hne => h (fun he => hne he.symm)
      simp only [CUDA_SAFE_CALL, if_neg h, Outcome.terminated, h3, Bool.false_eq_true]
  · intro count hcount
    rw [henv]
    exact hcount p

/-- Witness of C17: a call that fails with status 2 and leaves the state
untouched, at the call site a.cu, line 7. -/
theorem CUDA_SAFE_CALL_contract_witness :
    ((fun r : Proc Nat => ((2 : Nat), r)) { env := 0, stderr := [] }).1 ≠ cudaSuccess ∧
      CUDA_SAFE_CALL "a.cu" 7 (fun _ => "out of memory") (fun r : Proc Nat => ((2 : Nat), r))
          { env := 0, stderr := [] }
        = Outcome.exited EXIT_FAILURE
            { env := 0, stderr := [diagnostic "a.cu" 7 "out of memory"] } :=
  ⟨by decide,
    (CUDA_SAFE_CALL_contract "a.cu" 7 (fun _ => "out of memory")
      (fun r : Proc Nat => ((2 : Nat), r)) { env := 0, stderr := [] }).2.1 (by decide)⟩

end CudaHelper
